import Mathlib

/-!
Verification of the flashcards-generator pipeline (cleaner, chunker,
LLM-response parser, summary combiner, deck utilities).

The Python sources are shallowly embedded: each relevant Python function is
translated to an executable Lean function over `String` / `List Char`.
Regular-expression operations are translated to explicit scanners with the
same matching semantics (leftmost, non-overlapping, greedy) as the concrete
patterns used in the source.  Strings are modelled over their character
sequences; the Python `\s` class and `str.strip`/`str.lower` are modelled for
the ASCII range, which covers every character class the source's regexes use.
Fields of the pydantic models that no claim observes (ids, timestamps,
free-form metadata dictionaries) are omitted from the corresponding Lean
structures; validators of the modelled fields are kept, and a pydantic
`ValidationError` is modelled as an `Except`/`Option` failure.
-/

set_option maxRecDepth 40000

namespace Flashcards

/-! ### Python string primitives -/

/-- Python's `\s` character class (and `str.strip` char set), ASCII range:
space, tab, newline, carriage return, vertical tab, form feed. -/
def pyIsSpace (c : Char) : Bool :=
  c = ' ' || c = '\t' || c = '\n' || c = '\r' || c = '\x0b' || c = '\x0c'

/-- Python `str.strip()` on a character list. -/
def pyStripL (l : List Char) : List Char :=
  ((l.dropWhile pyIsSpace).reverse.dropWhile pyIsSpace).reverse

/-- Python `str.strip()`. -/
def pyStrip (s : String) : String :=
  String.mk (pyStripL s.data)

/-- Python `str.lower()` (ASCII range). -/
def pyLower (s : String) : String :=
  String.mk (s.data.map Char.toLower)

/-- Does `pat` occur at the very start of `l`?  (Python `str.startswith`.) -/
def leadsWith : List Char → List Char → Bool
  | [], _ => true
  | _ :: _, [] => false
  | p :: ps, c :: cs => p = c && leadsWith ps cs

/-- Does `pat` occur somewhere inside `l`?  (Python `pat in l`.) -/
def occursIn (pat : List Char) : List Char → Bool
  | [] => leadsWith pat []
  | c :: cs => leadsWith pat (c :: cs) || occursIn pat cs

/-- Python `sub in s` on strings. -/
def pyContains (sub s : String) : Bool :=
  occursIn sub.data s.data

/-- Split a character list at every occurrence of a separator character,
keeping empty pieces (Python `str.split(sep)`). -/
def splitOnChar (sep : Char) : List Char → List (List Char)
  | [] => [[]]
  | c :: cs =>
    if c = sep then [] :: splitOnChar sep cs
    else
      match splitOnChar sep cs with
      | [] => [[c]]
      | p :: ps => (c :: p) :: ps

/-- Join character lists with a separator list (Python `sep.join(parts)`). -/
def joinWith (sep : List Char) : List (List Char) → List Char
  | [] => []
  | [p] => p
  | p :: p' :: ps => p ++ sep ++ joinWith sep (p' :: ps)

/-- Accumulator loop of `pySplitWsL`: `cur` holds the reversed pending
word. -/
def pySplitWsAux (cur : List Char) : List Char → List (List Char)
  | [] => if cur.isEmpty then [] else [cur.reverse]
  | c :: cs =>
    if pyIsSpace c then
      if cur.isEmpty then pySplitWsAux [] cs
      else cur.reverse :: pySplitWsAux [] cs
    else pySplitWsAux (c :: cur) cs

/-- Python whitespace `str.split()` (no argument): split on whitespace runs,
dropping empty pieces. -/
def pySplitWsL (l : List Char) : List (List Char) :=
  pySplitWsAux [] l

/-- Python `len(s.split())`: the number of whitespace-separated words. -/
def wordCount (s : String) : Nat :=
  (pySplitWsL s.data).length

/-- Scan loop of Python `str.find`: lowest index at which `needle` occurs
(`i` is the index of the head of `l` in the original string), `none` for
Python's `-1`. -/
def pyFindAux (needle : List Char) : List Char → Nat → Option Nat
  | l, i =>
    if leadsWith needle l then some i
    else
      match l with
      | [] => none
      | _ :: t => pyFindAux needle t (i + 1)

/-- Python `hay.find(needle, start)` (continued): scan from `start`. -/
def pyFindFrom (hay needle : List Char) (start : Nat) : Option Nat :=
  if start > hay.length then none
  else pyFindAux needle (hay.drop start) start

/-- Index of the first occurrence of character `c` in `l` (Python `str.find(c)`
restricted to a single character). -/
def firstIdxOf (c : Char) (l : List Char) : Option Nat :=
  pyFindFrom l [c] 0

/-- Index of the last occurrence of character `c` in `l` (Python `str.rfind(c)`
restricted to a single character). -/
def lastIdxOf (c : Char) (l : List Char) : Option Nat :=
  match firstIdxOf c l.reverse with
  | none => none
  | some i => some (l.length - 1 - i)

/-! ### JSON values and `json.loads`

The model of Python's `json.loads` (strict mode, as used throughout the
source).  Numbers are kept exactly as mantissa × 10^exponent; no claim
observes a numeric value, only truthiness, which the representation decides.
`NaN`/`Infinity` literals (accepted by Python) are not modelled: no input in
the source or the claims contains them. -/

/-- A parsed JSON value.  Objects keep their members in textual order;
lookup takes the last binding, matching Python dict construction where a
duplicate key overwrites the earlier one. -/
inductive Json where
  | null
  | bool (b : Bool)
  | num (mant : Int) (exp10 : Int)
  | str (s : String)
  | arr (items : List Json)
  | obj (members : List (String × Json))
deriving Inhabited

/-- Python dict lookup on a parsed object: last binding wins. -/
def jsonLookup (members : List (String × Json)) (key : String) : Option Json :=
  match members with
  | [] => none
  | (k, v) :: rest =>
    match jsonLookup rest key with
    | some w => some w
    | none => if k = key then some v else none

/-- Python truthiness of a value produced by `json.loads`. -/
def pyTruthy : Json → Bool
  | .null => false
  | .bool b => b
  | .num m _ => m != 0
  | .str s => s != ""
  | .arr items => !items.isEmpty
  | .obj members => !members.isEmpty

/-- JSON inter-token whitespace (exactly the four characters `json.loads`
skips: space, tab, newline, carriage return). -/
def jsonWs (c : Char) : Bool :=
  c = ' ' || c = '\t' || c = '\n' || c = '\r'

/-- Skip JSON whitespace. -/
def skipJsonWs (l : List Char) : List Char :=
  l.dropWhile jsonWs

/-- Hex digit value, for `\uXXXX` escapes. -/
def hexDigitVal (c : Char) : Option Nat :=
  let n := c.toNat
  if 48 ≤ n && n ≤ 57 then some (n - 48)
  else if 97 ≤ n && n ≤ 102 then some (n - 87)
  else if 65 ≤ n && n ≤ 70 then some (n - 55)
  else none

/-- Body of a JSON string literal, after the opening quote.  Returns the
decoded characters and the remaining input after the closing quote.
Control characters below 0x20 are rejected (strict mode); `\uXXXX` escapes
are decoded for scalar values, with high/low surrogate pairs combined. -/
def jsonStringBody : List Char → Option (List Char × List Char)
  | [] => none
  | '"' :: rest => some ([], rest)
  | '\\' :: rest =>
    match rest with
    | [] => none
    | e :: rest' =>
      if e = 'u' then
        match rest' with
        | h1 :: h2 :: h3 :: h4 :: rest'' =>
          match hexDigitVal h1, hexDigitVal h2, hexDigitVal h3, hexDigitVal h4 with
          | some a, some b, some c, some d =>
            let n := ((a * 16 + b) * 16 + c) * 16 + d
            if 0xd800 ≤ n && n < 0xdc00 then
              -- high surrogate: require a following low surrogate
              match rest'' with
              | '\\' :: 'u' :: g1 :: g2 :: g3 :: g4 :: rest3 =>
                match hexDigitVal g1, hexDigitVal g2, hexDigitVal g3, hexDigitVal g4 with
                | some a', some b', some c', some d' =>
                  let n' := ((a' * 16 + b') * 16 + c') * 16 + d'
                  if 0xdc00 ≤ n' && n' < 0xe000 then
                    let cp := 0x10000 + (n - 0xd800) * 0x400 + (n' - 0xdc00)
                    match jsonStringBody rest3 with
                    | some (tail, rem) => some (Char.ofNat cp :: tail, rem)
                    | none => none
                  else none
                | _, _, _, _ => none
              | _ => none
            else if 0xdc00 ≤ n && n < 0xe000 then none
            else
              match jsonStringBody rest'' with
              | some (tail, rem) => some (Char.ofNat n :: tail, rem)
              | none => none
          | _, _, _, _ => none
        | _ => none
      else
        let dec : Option Char :=
          if e = '"' then some '"'
          else if e = '\\' then some '\\'
          else if e = '/' then some '/'
          else if e = 'b' then some '\x08'
          else if e = 'f' then some '\x0c'
          else if e = 'n' then some '\n'
          else if e = 'r' then some '\r'
          else if e = 't' then some '\t'
          else none
        match dec with
        | none => none
        | some d =>
          match jsonStringBody rest' with
          | some (tail, rem) => some (d :: tail, rem)
          | none => none
  | c :: rest =>
    if c.toNat < 0x20 then none
    else
      match jsonStringBody rest with
      | some (tail, rem) => some (c :: tail, rem)
      | none => none

/-- Decimal digits 0-9. -/
def isDigitCh (c : Char) : Bool :=
  '0' ≤ c && c ≤ '9'

/-- Interpret a digit run as a natural number. -/
def digitsVal (ds : List Char) : Nat :=
  ds.foldl (fun acc c => acc * 10 + (c.toNat - '0'.toNat)) 0

/-- JSON number literal: `-?(0|[1-9][0-9]*)(\.[0-9]+)?([eE][+-]?[0-9]+)?`.
Returns the value as mantissa × 10^exponent and the remaining input. -/
def jsonNumberTail (l : List Char) : Option ((Int × Int) × List Char) :=
  let (neg, l1) := match l with
    | '-' :: r => (true, r)
    | _ => (false, l)
  let intDs := l1.takeWhile isDigitCh
  let l2 := l1.dropWhile isDigitCh
  if intDs = [] then none
  else if 1 < intDs.length ∧ intDs.headD '0' = '0' then none
  else
    let (fracDs, l3) := match l2 with
      | '.' :: r =>
        (r.takeWhile isDigitCh, r.dropWhile isDigitCh)
      | _ => ([], l2)
    let fracBad : Bool := match l2 with
      | '.' :: _ => fracDs.isEmpty
      | _ => false
    if fracBad then none
    else
      let (expOk, expVal, l4) := match l3 with
        | 'e' :: r | 'E' :: r =>
          let (eneg, r1) := match r with
            | '-' :: r' => (true, r')
            | '+' :: r' => (false, r')
            | _ => (false, r)
          let expDs := r1.takeWhile isDigitCh
          let r2 := r1.dropWhile isDigitCh
          if expDs = [] then (false, (0 : Int), r2)
          else (true, (if eneg then -(digitsVal expDs : Int) else (digitsVal expDs : Int)), r2)
        | _ => (true, 0, l3)
      if !expOk then none
      else
        let mantNat : Nat := digitsVal intDs * 10 ^ fracDs.length + digitsVal fracDs
        let mant : Int := if neg then -(mantNat : Int) else (mantNat : Int)
        some ((mant, expVal - fracDs.length), l4)

mutual

/-- A JSON value, with explicit fuel decremented at every recursive call.
The fuel only guards termination: every two consecutive recursive calls pass
at least one consumed input character, so `2 * length + 4` fuel (used by
`jsonLoads`) can never run out on the way to a successful parse. -/
def jsonValue : Nat → List Char → Option (Json × List Char)
  | 0, _ => none
  | fuel + 1, l =>
    match skipJsonWs l with
    | [] => none
    | c :: rest =>
      if c = '\x7b' then
        match skipJsonWs rest with
        | '\x7d' :: rem => some (.obj [], rem)
        | l' =>
          match jsonMembersLoop fuel l' with
          | some (ms, rem) => some (.obj ms, rem)
          | none => none
      else if c = '[' then
        match skipJsonWs rest with
        | ']' :: rem => some (.arr [], rem)
        | l' =>
          match jsonItemsLoop fuel l' with
          | some (items, rem) => some (.arr items, rem)
          | none => none
      else if c = '"' then
        match jsonStringBody rest with
        | some (body, rem) => some (.str (String.mk body), rem)
        | none => none
      else if leadsWith ['t', 'r', 'u', 'e'] (c :: rest) then
        some (.bool true, rest.drop 3)
      else if leadsWith ['f', 'a', 'l', 's', 'e'] (c :: rest) then
        some (.bool false, rest.drop 4)
      else if leadsWith ['n', 'u', 'l', 'l'] (c :: rest) then
        some (.null, rest.drop 3)
      else
        match jsonNumberTail (c :: rest) with
        | some ((m, e), rem) => some (.num m e, rem)
        | none => none

/-- One-or-more `"key": value` members separated by commas, ending at `}`
(a trailing comma or a non-string key fails, as in strict `json.loads`). -/
def jsonMembersLoop : Nat → List Char → Option (List (String × Json) × List Char)
  | 0, _ => none
  | fuel + 1, l =>
    match l with
    | '"' :: rest =>
      match jsonStringBody rest with
      | none => none
      | some (key, rem1) =>
        match skipJsonWs rem1 with
        | ':' :: rem2 =>
          match jsonValue fuel rem2 with
          | none => none
          | some (v, rem3) =>
            match skipJsonWs rem3 with
            | ',' :: rem4 =>
              match jsonMembersLoop fuel (skipJsonWs rem4) with
              | some (ms, rem5) => some ((String.mk key, v) :: ms, rem5)
              | none => none
            | '\x7d' :: rem4 => some ([(String.mk key, v)], rem4)
            | _ => none
        | _ => none
    | _ => none

/-- One-or-more array values separated by commas, ending at `]`. -/
def jsonItemsLoop : Nat → List Char → Option (List Json × List Char)
  | 0, _ => none
  | fuel + 1, l =>
    match jsonValue fuel l with
    | none => none
    | some (v, rem) =>
      match skipJsonWs rem with
      | ',' :: rem2 =>
        match jsonItemsLoop fuel (skipJsonWs rem2) with
        | some (vs, rem3) => some (v :: vs, rem3)
        | none => none
      | ']' :: rem2 => some ([v], rem2)
      | _ => none

end

/-- Python `json.loads`: parse a complete document, allowing surrounding
whitespace, rejecting trailing garbage.  `none` models a raised
`json.JSONDecodeError`. -/
def jsonLoads (s : String) : Option Json :=
  match jsonValue (2 * s.data.length + 4) s.data with
  | none => none
  | some (v, rest) =>
    if skipJsonWs rest = [] then some v else none

/-! ### Data model (schemas.py)

`DifficultyLevel`, `Card`, `Chunk` and `Deck` from `schemas.py`.  Only the
fields some claim observes are modelled; `id`/`created_at`/`metadata` (a
fresh UUID, a timestamp, and a free-form dict) are omitted.  UUIDs are
modelled as opaque strings. -/

/-- `DifficultyLevel` enum. -/
inductive DifficultyLevel where
  | easy
  | medium
  | hard
deriving DecidableEq, Inhabited

/-- `CardType` enum (only `basic` is ever constructed by the generator). -/
inductive CardType where
  | basic
  | cloze
  | reversed
deriving DecidableEq, Inhabited

/-- The `Card` pydantic model.  The `front`/`back` validators strip the
stored values, so a constructed `Card` always holds stripped non-empty
strings; construction failure (a pydantic `ValidationError`) is modelled at
the construction sites. -/
structure Card where
  front : String
  back : String
  cardType : CardType
  tags : List String
  sourceId : Option String
  chunkId : Option String
  difficulty : Option DifficultyLevel
deriving DecidableEq, Inhabited

/-- The fields of the `Chunk` pydantic model. -/
structure Chunk where
  id : String
  sourceId : String
  text : String
  tokenCount : Nat
  wordCountF : Nat
  index : Nat
  startChar : Nat
  endChar : Nat
deriving DecidableEq, Inhabited

/-- Pydantic coercion of a JSON value into `Optional[DifficultyLevel]`:
`None` stays `None`, the three enum values coerce, anything else raises a
`ValidationError` (modelled as `none`). -/
def pydanticDifficulty : Json → Option (Option DifficultyLevel)
  | .null => some none
  | .str s =>
    if s = "easy" then some (some .easy)
    else if s = "medium" then some (some .medium)
    else if s = "hard" then some (some .hard)
    else none
  | _ => none

/-! ### Response parsing (llm/generate.py)

`FlashcardGenerator._parse_llm_response`, `_parse_truncated_json`,
`_fix_json_format`, `validate_cards`, `_is_low_quality_card`, and the prompt
template machinery.  The regexes are embedded as explicit scanners. -/

/-- `re.search(r'\{.*\}', text, re.DOTALL)`: with a greedy `.*` under DOTALL
this matches from the first `{` to the last `}` (when the last `}` comes
after the first `{`), and fails otherwise.  Returns the matched slice. -/
def reSearchBraces (l : List Char) : Option (List Char) :=
  match firstIdxOf '\x7b' l, lastIdxOf '\x7d' l with
  | some i, some j => if i < j then some ((l.drop i).take (j - i + 1)) else none
  | _, _ => none

/-- Consume one expected character. -/
def eatCh (c : Char) : List Char → Option (List Char)
  | [] => none
  | x :: r => if x = c then some r else none

/-- Consume an expected literal. -/
def eatLit (pat : List Char) (l : List Char) : Option (List Char) :=
  if leadsWith pat l then some (l.drop pat.length) else none

/-- Match the card-object regex
`\{\s*"front":\s*"[^"]*",\s*"back":\s*"[^"]*",\s*"chunk_id":\s*"[^"]*"\s*\}`
at the start of the input (the part after the opening `{`), returning the
rest of the input after the match.  Each `\s*`/`[^"]*` is a maximal munch
followed by a literal the munched class excludes, so the regex is
deterministic and this scanner is exact. -/
def matchCardTail (l : List Char) : Option (List Char) := do
  let r1 := l.dropWhile pyIsSpace
  let r2 ← eatLit "\"front\":".data r1
  let r3 := r2.dropWhile pyIsSpace
  let r4 ← eatCh '"' r3
  let r5 := r4.dropWhile (fun c => c != '"')
  let r6 ← eatCh '"' r5
  let r7 ← eatCh ',' r6
  let r8 := r7.dropWhile pyIsSpace
  let r9 ← eatLit "\"back\":".data r8
  let r10 := r9.dropWhile pyIsSpace
  let r11 ← eatCh '"' r10
  let r12 := r11.dropWhile (fun c => c != '"')
  let r13 ← eatCh '"' r12
  let r14 ← eatCh ',' r13
  let r15 := r14.dropWhile pyIsSpace
  let r16 ← eatLit "\"chunk_id\":".data r15
  let r17 := r16.dropWhile pyIsSpace
  let r18 ← eatCh '"' r17
  let r19 := r18.dropWhile (fun c => c != '"')
  let r20 ← eatCh '"' r19
  let r21 := r20.dropWhile pyIsSpace
  eatCh '\x7d' r21

/-- `re.findall(card_pattern, text)`: scan left to right; at a match emit the
matched slice and continue after it, otherwise advance one character.  The
fuel is the remaining scan budget: every iteration advances at least one
character (a match always consumes the opening brace), so `length + 1` fuel
(used by `findallCard`) never runs out. -/
def findallCardGo : Nat → List Char → List (List Char)
  | 0, _ => []
  | _ + 1, [] => []
  | fuel + 1, c :: t =>
    if c = '\x7b' then
      match matchCardTail t with
      | some r => ((c :: t).take (t.length + 1 - r.length)) :: findallCardGo fuel r
      | none => findallCardGo fuel t
    else findallCardGo fuel t

/-- All (non-overlapping, leftmost) matches of the card-object pattern. -/
def findallCard (l : List Char) : List (List Char) :=
  findallCardGo (l.length + 1) l

/-- The recovery scan of `_parse_truncated_json`: every regex match of the
card pattern, re-parsed with `json.loads` (a match that fails to parse is
skipped via the loop's `continue`). -/
def recoveredCardsOf (jsonText : String) : List Json :=
  (findallCard jsonText.data).filterMap (fun m => jsonLoads (String.mk m))

/-- `FlashcardGenerator._parse_truncated_json`: a non-empty recovery yields
a synthetic `{"cards": [...]}` object, otherwise `None`. -/
def parseTruncatedJson (jsonText : String) : Option Json :=
  if (recoveredCardsOf jsonText).isEmpty then none
  else some (.obj [("cards", .arr (recoveredCardsOf jsonText))])

/-- Is `c` valid as the first character of a bare identifier
(`[a-zA-Z_]`)? -/
def isIdentStart (c : Char) : Bool :=
  ('a' ≤ c && c ≤ 'z') || ('A' ≤ c && c ≤ 'Z') || c = '_'

/-- Is `c` valid inside a bare identifier (`[a-zA-Z0-9_]`)? -/
def isIdentCh (c : Char) : Bool :=
  isIdentStart c || ('0' ≤ c && c ≤ '9')

/-- `re.sub(r'([{,]\s*)([a-zA-Z_][a-zA-Z0-9_]*)\s*:', r'\1"\2":', text)`:
quote bare object keys.  Fuel as in `findallCardGo`. -/
def subBareKeysGo : Nat → List Char → List Char
  | 0, l => l
  | _ + 1, [] => []
  | fuel + 1, c :: t =>
    if c = '\x7b' || c = ',' then
      let w := t.takeWhile pyIsSpace
      let r1 := t.dropWhile pyIsSpace
      match r1 with
      | x :: _ =>
        if isIdentStart x then
          let idf := r1.takeWhile isIdentCh
          let r2 := r1.dropWhile isIdentCh
          let r3 := r2.dropWhile pyIsSpace
          match r3 with
          | ':' :: r4 =>
            c :: w ++ '"' :: idf ++ '"' :: ':' :: subBareKeysGo fuel r4
          | _ => c :: subBareKeysGo fuel t
        else c :: subBareKeysGo fuel t
      | [] => c :: subBareKeysGo fuel t
    else c :: subBareKeysGo fuel t

/-- `FlashcardGenerator._fix_json_format`. -/
def fixJsonFormat (s : String) : String :=
  let l := pyStripL s.data
  let l := match firstIdxOf '\x7b' l with
    | some i => if i > 0 then l.drop i else l
    | none => l
  let l := match lastIdxOf '\x7d' l with
    | some j => if j > 0 then l.take (j + 1) else l
    | none => l
  String.mk (subBareKeysGo (l.length + 1) l)

/-- One entry of the `cards`/`flashcards` list, as processed by the loop in
`_parse_llm_response`: accept `front`/`back` or legacy `question`/`answer`,
skip entries without truthy values, strip, and construct a `Card` (whose
pydantic validators may reject it — also a skip, via the inner `except`).
`none` models `continue`. -/
def processEntry (chunk : Chunk) (entry : Json) : Option Card :=
  match entry with
  | .obj ms =>
    let frontJ :=
      match jsonLookup ms "front" with
      | some v => if pyTruthy v then v else (jsonLookup ms "question").getD (.str "")
      | none => (jsonLookup ms "question").getD (.str "")
    let backJ :=
      match jsonLookup ms "back" with
      | some v => if pyTruthy v then v else (jsonLookup ms "answer").getD (.str "")
      | none => (jsonLookup ms "answer").getD (.str "")
    if !pyTruthy frontJ || !pyTruthy backJ then none
    else
      match frontJ, backJ with
      | .str f, .str b =>
        let front := pyStrip f
        let back := pyStrip b
        if front = "" || back = "" then none
        else
          let diffJ := (jsonLookup ms "difficulty").getD (.str "medium")
          match pydanticDifficulty diffJ with
          | some d => some {
              front := front, back := back, cardType := .basic, tags := [],
              sourceId := some chunk.sourceId, chunkId := some chunk.id,
              difficulty := d }
          | none => none
      | _, _ => none
  | _ => none

/-- Extract the card-entry list from a parsed response object: prefer the
`cards` key, fall back to `flashcards`; a missing key, a non-list value, or
a non-dict response all end with no cards (via the logged error paths and
the surrounding `except`). -/
def cardsDataOf (data : Json) : List Json :=
  match data with
  | .obj ms =>
    match jsonLookup ms "cards" with
    | some (.arr items) => items
    | some _ => []
    | none =>
      match jsonLookup ms "flashcards" with
      | some (.arr items) => items
      | some _ => []
      | none => []
  | _ => []

/-- The candidate JSON text inspected by `_parse_llm_response`: the greedy
brace-delimited slice of the stripped response, or the whole stripped
response when the brace search fails. -/
def jsonTextOf (responseText : String) : String :=
  match reSearchBraces (pyStrip responseText).data with
  | some m => String.mk m
  | none => pyStrip responseText

/-- `FlashcardGenerator._parse_llm_response`. -/
def parseLlmResponse (responseText : String) (chunk : Chunk) : List Card :=
  let jsonText := jsonTextOf responseText
  let data : Option Json :=
    match jsonLoads jsonText with
    | some d => some d
    | none =>
      match parseTruncatedJson jsonText with
      | some d => some d
      | none => jsonLoads (fixJsonFormat jsonText)
  match data with
  | none => []
  | some d => (cardsDataOf d).filterMap (processEntry chunk)

/-- The generic question stems rejected by `_is_low_quality_card`. -/
def genericStarters : List String :=
  ["what is this", "what are these", "explain this",
   "describe this", "what does this mean"]

/-- `FlashcardGenerator._is_low_quality_card`. -/
def isLowQualityCard (card : Card) : Bool :=
  let question := pyLower card.front
  let answer := pyLower card.back
  genericStarters.any (fun st => leadsWith st.data question.data)
    || occursIn question.data answer.data
    || occursIn answer.data question.data

/-- `FlashcardGenerator.validate_cards`. -/
def validateCards (cards : List Card) : List Card :=
  cards.filter (fun card =>
    !(card.front = "" || card.back = "")
      && !(card.front.length < 10)
      && !(card.back.length < 5)
      && !isLowQualityCard card)

/-! ### Prompt templates (llm/generate.py)

`_load_prompt_template`, `_get_default_prompt_template`,
`_create_generation_prompt` and the Python `str.format` machinery they rely
on.  The repository contains no `prompts/` directory, so
`_load_prompt_template` always takes its missing-file branch and returns the
default template. -/

/-- Python `str.format` with keyword arguments: copy characters, turn
`\x7b\x7b`/`\x7d\x7d` into literal braces, substitute named fields, raise
`KeyError(name)` (modelled as `.error name`) for an unknown field name and
`ValueError` (modelled as `.error "ValueError"`) for stray braces.  Fuel as
in the other scanners: every step consumes at least one character. -/
def pyFormatGo (args : List (String × String)) : Nat → List Char → Except String (List Char)
  | 0, l => .ok l
  | _ + 1, [] => .ok []
  | fuel + 1, '\x7b' :: '\x7b' :: rest => (pyFormatGo args fuel rest).map (fun t => '\x7b' :: t)
  | fuel + 1, '\x7d' :: '\x7d' :: rest => (pyFormatGo args fuel rest).map (fun t => '\x7d' :: t)
  | _ + 1, '\x7d' :: _ => .error "ValueError"
  | fuel + 1, '\x7b' :: rest =>
    let nm := rest.takeWhile (fun c => c != '\x7d')
    match rest.dropWhile (fun c => c != '\x7d') with
    | '\x7d' :: rest' =>
      match args.find? (fun kv => kv.1 == String.mk nm) with
      | some kv => (pyFormatGo args fuel rest').map (fun t => kv.2.data ++ t)
      | none => .error (String.mk nm)
    | _ => .error "ValueError"
  | fuel + 1, c :: rest => (pyFormatGo args fuel rest).map (fun t => c :: t)

/-- Python `template.format(**args)`. -/
def pyFormat (template : String) (args : List (String × String)) : Except String String :=
  (pyFormatGo args (template.data.length + 1) template.data).map String.mk

/-- `FlashcardGenerator._get_default_prompt_template`, verbatim (literal
braces written as `\x7b`/`\x7d` escapes). -/
def getDefaultPromptTemplate : String :=
  "You are an expert educational content creator. Your task is to generate high-quality flashcards from the provided text content.\n\nGuidelines:\n1. Create clear, concise question-answer pairs\n2. Focus on key concepts, definitions, and important facts\n3. Ensure questions are specific and answerable from the content\n4. Make answers complete but concise\n5. Generate {max_cards} flashcards maximum per chunk\n6. Output valid JSON format only\n\nInput Text:\n{text_content}\n\nOutput Format (JSON only, no other text):\n\x7b\x7b\n  \"flashcards\": [\n    \x7b\x7b\n      \"question\": \"What is...?\",\n      \"answer\": \"Clear, concise answer...\",\n      \"difficulty\": \"easy|medium|hard\"\n    \x7d\x7d\n  ]\n\x7d\x7d"

/-- `FlashcardGenerator._load_prompt_template`: the repository ships no
`prompts/qa_generation.md`, so the `prompt_file.exists()` test fails and the
default template is returned. -/
def loadPromptTemplate : String :=
  getDefaultPromptTemplate

/-- `FlashcardGenerator._create_generation_prompt`:
`self.prompt_template.format(text=chunk_text, chunk_id=chunk_id)`.
An `.error` result models the `KeyError`/`ValueError` escaping this method
(it has no handler of its own). -/
def createGenerationPrompt (chunkText chunkId : String) : Except String String :=
  pyFormat loadPromptTemplate [("text", chunkText), ("chunk_id", chunkId)]

/-! ### Text cleaning (preprocess/cleaner.py)

`TextCleaner`: hyphenation repair, URL/email redaction, page-artifact line
removal, special-character normalization, punctuation de-duplication,
whitespace normalization, and `clean_text` tying them together in source
order.  Regex substitutions are embedded as explicit scanners; the fueled
ones advance at least one character per step, so `length + 1` fuel never
runs out. -/

/-- Python word character `\w` (ASCII): `[a-zA-Z0-9_]`. -/
def isWordCh (c : Char) : Bool :=
  isIdentCh c

/-- One hyphenation pattern pass over the text:
with `needNl = true` this is `re.sub(r'(\w+)-\s*\n\s*(\w+)', r'\1\2', ...)`
(the whitespace run after the hyphen must contain a newline), with
`needNl = false` it is `re.sub(r'(\w+)-\s+(\w+)', r'\1\2', ...)` (the run
must merely be non-empty).  In both, a maximal word run followed by `-`,
a qualifying whitespace run, and a following word run collapse to the two
word runs; scanning resumes after the second word run. -/
def subHyphenGo (needNl : Bool) : Nat → List Char → List Char
  | 0, l => l
  | _ + 1, [] => []
  | fuel + 1, c :: t =>
    if isWordCh c then
      let w1 := (c :: t).takeWhile isWordCh
      let r1 := (c :: t).dropWhile isWordCh
      match r1 with
      | '-' :: r2 =>
        let run := r2.takeWhile pyIsSpace
        let r3 := r2.dropWhile pyIsSpace
        let sepOk := if needNl then run.contains '\n' else !run.isEmpty
        match r3 with
        | d :: _ =>
          if sepOk && isWordCh d then
            let w2 := r3.takeWhile isWordCh
            let r4 := r3.dropWhile isWordCh
            w1 ++ w2 ++ subHyphenGo needNl fuel r4
          else w1 ++ '-' :: subHyphenGo needNl fuel r2
        | [] => w1 ++ '-' :: subHyphenGo needNl fuel r2
      | _ => w1 ++ subHyphenGo needNl fuel r1
    else c :: subHyphenGo needNl fuel t

/-- `TextCleaner.fix_hyphenation`: both patterns, in source order. -/
def fixHyphenation (l : List Char) : List Char :=
  let l1 := subHyphenGo true (l.length + 1) l
  subHyphenGo false (l1.length + 1) l1

/-- ASCII letter. -/
def isAsciiAlpha (c : Char) : Bool :=
  ('a' ≤ c && c ≤ 'z') || ('A' ≤ c && c ≤ 'Z')

/-- The character class of the URL regex body:
`[a-zA-Z]|[0-9]|[$-_@.&+]|[!*\\(\\),]|%[0-9a-fA-F]{2}` — a letter, a digit,
any character in the range `0x24`-`0x5f` (which subsumes `@.&+` and the
`%XX` alternative's `%`), or one of `! * \ ( ) ,`. -/
def urlBodyCh (c : Char) : Bool :=
  isAsciiAlpha c || isDigitCh c || (0x24 ≤ c.toNat && c.toNat ≤ 0x5f)
    || c = '!' || c = '*' || c = '\\' || c = '(' || c = ')' || c = ','

/-- `TextCleaner.remove_urls`: replace every `http[s]?://`‑prefixed run of
URL body characters with `' [URL] '`. -/
def subUrlsGo : Nat → List Char → List Char
  | 0, l => l
  | _ + 1, [] => []
  | fuel + 1, c :: t =>
    if leadsWith "http".data (c :: t) then
      let r0 := (c :: t).drop 4
      let r1 := match r0 with
        | 's' :: r => r
        | _ => r0
      match eatLit "://".data r1 with
      | some r2 =>
        let body := r2.takeWhile urlBodyCh
        if body.isEmpty then c :: subUrlsGo fuel t
        else " [URL] ".data ++ subUrlsGo fuel (r2.dropWhile urlBodyCh)
      | none => c :: subUrlsGo fuel t
    else c :: subUrlsGo fuel t

/-- `TextCleaner.remove_urls` (text component; the count is not modelled). -/
def removeUrlsL (l : List Char) : List Char :=
  subUrlsGo (l.length + 1) l

/-- Local-part class `[A-Za-z0-9._%+-]` of the email regex. -/
def emailLocalCh (c : Char) : Bool :=
  isAsciiAlpha c || isDigitCh c || c = '.' || c = '_' || c = '%' || c = '+' || c = '-'

/-- Domain class `[A-Za-z0-9.-]` of the email regex. -/
def emailDomainCh (c : Char) : Bool :=
  isAsciiAlpha c || isDigitCh c || c = '.' || c = '-'

/-- Top-level-domain class `[A-Z|a-z]` of the email regex (the literal `|`
inside the character class is part of the class). -/
def emailTldCh (c : Char) : Bool :=
  isAsciiAlpha c || c = '|'

/-- Match the email regex
`\b[A-Za-z0-9._%+-]+@[A-Za-z0-9.-]+\.[A-Z|a-z]{2,}\b` at the start of `l`,
where `prevIsWord` says whether the character before `l` is a `\w` character
(for the boundary assertions).  The local part is deterministic (its class
excludes `@`); the domain/TLD split backtracks greedily: the longest
domain prefix ending before a literal `.`, then the longest TLD of length
at least 2 whose end is a word boundary.  Returns the match length. -/
def matchEmailAt (prevIsWord : Bool) (l : List Char) : Option Nat :=
  let localRun := l.takeWhile emailLocalCh
  if localRun.isEmpty then none
  else if prevIsWord = isWordCh (l.headD ' ') then none
  else
    match l.drop localRun.length with
    | '@' :: r =>
      let dom := r.takeWhile emailDomainCh
      (List.range dom.length).reverse.findSome? (fun q =>
        if 1 ≤ q && dom.getD q ' ' == '.' then
          let afterDot := r.drop (q + 1)
          let tld := afterDot.takeWhile emailTldCh
          (List.range (tld.length + 1)).reverse.findSome? (fun tn =>
            if 2 ≤ tn then
              let lastCh := tld.getD (tn - 1) ' '
              let nextIsWord := match afterDot.drop tn with
                | [] => false
                | d :: _ => isWordCh d
              if isWordCh lastCh != nextIsWord
              then some (localRun.length + 1 + q + 1 + tn)
              else none
            else none)
        else none)
    | _ => none

/-- `TextCleaner.remove_emails`: replace every email match with
`' [EMAIL] '`; scanning continues on the original characters, so the word
characters feeding later boundary assertions are the original ones. -/
def subEmailsGo : Nat → Bool → List Char → List Char
  | 0, _, l => l
  | _ + 1, _, [] => []
  | fuel + 1, prevIsWord, c :: t =>
    match matchEmailAt prevIsWord (c :: t) with
    | some n =>
      " [EMAIL] ".data ++
        subEmailsGo fuel (isWordCh ((c :: t).getD (n - 1) ' ')) ((c :: t).drop n)
    | none => c :: subEmailsGo fuel (isWordCh c) t

/-- `TextCleaner.remove_emails` (text component). -/
def removeEmailsL (l : List Char) : List Char :=
  subEmailsGo (l.length + 1) false l

/-- Scan loop of Python `str.replace(old, new)` for a non-empty `old`:
non-overlapping leftmost matches, replacements not rescanned.  Fuel as in
the other scanners. -/
def pyReplaceGo (pat repl : List Char) : Nat → List Char → List Char
  | 0, l => l
  | _ + 1, [] => []
  | fuel + 1, c :: t =>
    if !pat.isEmpty && leadsWith pat (c :: t) then
      repl ++ pyReplaceGo pat repl fuel ((c :: t).drop pat.length)
    else c :: pyReplaceGo pat repl fuel t

/-- Python `s.replace(old, new)` (for the non-empty patterns the source
uses). -/
def pyReplace (s pat repl : String) : String :=
  String.mk (pyReplaceGo pat.data repl.data (s.data.length + 1) s.data)

/-- Case-insensitive literal prefix test (the `re.IGNORECASE` artifact
patterns), with the pattern given pre-lowered. -/
def ciLeadsWith (pat : String) (l : List Char) : Bool :=
  leadsWith pat.data (l.map Char.toLower)

/-- Decimal digit run of length at least one at the start. -/
def leadsWithDigits (l : List Char) : Bool :=
  match l with
  | d :: _ => isDigitCh d
  | [] => false

/-- `re.match(r'Page \d+ of \d+', line, re.IGNORECASE)` as a prefix test. -/
def matchPageOf (l : List Char) : Bool :=
  ciLeadsWith "page " l &&
    (let r := l.drop 5
     leadsWithDigits r &&
       (let r2 := r.dropWhile isDigitCh
        ciLeadsWith " of " r2 && leadsWithDigits (r2.drop 4)))

/-- `re.match(r'Page \d+', line, re.IGNORECASE)` as a prefix test. -/
def matchPageNum (l : List Char) : Bool :=
  ciLeadsWith "page " l && leadsWithDigits (l.drop 5)

/-- `re.match(r'^\d+$', line)`: the whole line is a non-empty digit run. -/
def matchAllDigits (l : List Char) : Bool :=
  !l.isEmpty && l.all isDigitCh

/-- `re.match(r'Chapter \d+', line, re.IGNORECASE)` as a prefix test. -/
def matchChapter (l : List Char) : Bool :=
  ciLeadsWith "chapter " l && leadsWithDigits (l.drop 8)

/-- Does a stripped line match any of the page-artifact patterns? -/
def isArtifactLine (stripped : List Char) : Bool :=
  matchPageOf stripped || matchPageNum stripped || matchAllDigits stripped
    || matchChapter stripped

/-- `TextCleaner.remove_page_artifacts` (text component): keep blank lines,
drop artifact lines, keep the rest. -/
def removePageArtifactsL (l : List Char) : List Char :=
  joinWith ['\n'] ((splitOnChar '\n' l).filter (fun line =>
    let stripped := pyStripL line
    stripped.isEmpty || !isArtifactLine stripped))

/-- Python `str.replace` for a single-character pattern. -/
def replaceChar (c : Char) (repl : List Char) (l : List Char) : List Char :=
  l.flatMap (fun x => if x = c then repl else [x])

/-- `TextCleaner.normalize_special_characters` (text component): the
`special_char_replacements` table, applied in source order. -/
def normalizeSpecialCharactersL (l : List Char) : List Char :=
  let l := replaceChar '“' ['"'] l
  let l := replaceChar '”' ['"'] l
  let l := replaceChar '‘' ['\''] l
  let l := replaceChar '’' ['\''] l
  let l := replaceChar '–' ['-'] l
  let l := replaceChar '—' ['-'] l
  replaceChar '…' ['.', '.', '.'] l

/-- Emit a pending run of `k` copies of `β`: collapsed to `repl` when the
run reaches the threshold, kept verbatim otherwise. -/
def emitRun (β : Char) (thr : Nat) (repl : List Char) (k : Nat) : List Char :=
  if k = 0 then [] else if thr ≤ k then repl else List.replicate k β

/-- Accumulator loop of `collapseRuns`: `k` counts the pending `β` run. -/
def collapseRunsAux (β : Char) (thr : Nat) (repl : List Char) :
    Nat → List Char → List Char
  | k, [] => emitRun β thr repl k
  | k, c :: cs =>
    if c = β then collapseRunsAux β thr repl (k + 1) cs
    else emitRun β thr repl k ++ c :: collapseRunsAux β thr repl 0 cs

/-- `re.sub(β{thr,}, repl, ...)` for a single-character class: each maximal
run of `β` of length at least `thr` becomes `repl`; shorter runs are kept. -/
def collapseRuns (β : Char) (thr : Nat) (repl : List Char) (l : List Char) : List Char :=
  collapseRunsAux β thr repl 0 l

/-- `TextCleaner.remove_excessive_punctuation`: `[.]{3,}` → `...`,
`[!]{2,}` → `!`, `[?]{2,}` → `?`, in source order. -/
def removeExcessivePunctuationL (l : List Char) : List Char :=
  collapseRuns '?' 2 ['?'] (collapseRuns '!' 2 ['!'] (collapseRuns '.' 3 ['.', '.', '.'] l))

/-- Accumulator loop of `collapseWs`: `pending` records an open whitespace
run, emitted as one space at the next non-whitespace character (or the
end). -/
def collapseWsAux (pending : Bool) : List Char → List Char
  | [] => if pending then [' '] else []
  | c :: cs =>
    if pyIsSpace c then collapseWsAux true cs
    else if pending then ' ' :: c :: collapseWsAux false cs
    else c :: collapseWsAux false cs

/-- `re.sub(r'\s+', ' ', text)`: every maximal whitespace run becomes a
single space. -/
def collapseWs (l : List Char) : List Char :=
  collapseWsAux false l

/-- The `prev_empty` loop of `normalize_whitespace`: keep non-empty lines,
keep the first of a run of empty lines, drop the rest. -/
def dedupBlankLines (prevEmpty : Bool) : List (List Char) → List (List Char)
  | [] => []
  | ln :: rest =>
    if !ln.isEmpty then ln :: dedupBlankLines false rest
    else if !prevEmpty then [] :: dedupBlankLines true rest
    else dedupBlankLines true rest

/-- `TextCleaner.normalize_whitespace`: collapse `\s+` to single spaces,
collapse `\n{3,}` to `\n\n`, strip each line, and de-duplicate blank lines. -/
def normalizeWhitespaceL (l : List Char) : List Char :=
  joinWith ['\n']
    (dedupBlankLines false
      ((splitOnChar '\n' (collapseRuns '\n' 3 ['\n', '\n'] (collapseWs l))).map pyStripL))

/-- `TextCleaner.normalize_whitespace` on strings. -/
def normalizeWhitespace (s : String) : String :=
  String.mk (normalizeWhitespaceL s.data)

/-- `TextCleaner.remove_excessive_punctuation` on strings. -/
def removeExcessivePunctuation (s : String) : String :=
  String.mk (removeExcessivePunctuationL s.data)

/-- `TextCleaner.clean_text` (text component, `aggressive=False` as in every
call in the repository), parameterized by the three
`settings.text_processing` toggles it reads.  A blank input is returned
unchanged (the early-return branch); otherwise the seven steps run in
source order and the result is stripped. -/
def cleanText (removeUrls removeEmail normalizeWs : Bool) (text : String) : String :=
  if pyStrip text = "" then text
  else
    let t := fixHyphenation text.data
    let t := if removeUrls then removeUrlsL t else t
    let t := if removeEmail then removeEmailsL t else t
    let t := removePageArtifactsL t
    let t := normalizeSpecialCharactersL t
    let t := removeExcessivePunctuationL t
    let t := if normalizeWs then normalizeWhitespaceL t else t
    String.mk (pyStripL t)

/-- `clean_text` under the default configuration: `remove_urls = True`,
`remove_email = True`, `normalize_whitespace = True` (config.py defaults). -/
def cleanTextDefault (text : String) : String :=
  cleanText true true true text

/-! ### Chunking (preprocess/chunker.py)

`TextChunker`: the sentence/paragraph/word splitters, overlap injection and
`chunk_text`.  The `tiktoken` tokenizer is external; `count_tokens` is
parameterized by an optional encoder, with the source's
`int(word_count * 0.75)` fallback. -/

/-- Sentence punctuation `[.!?]`. -/
def isSentPunct (c : Char) : Bool :=
  c = '.' || c = '!' || c = '?'

/-- ASCII `[A-Z]`. -/
def isUpperAZ (c : Char) : Bool :=
  'A' ≤ c && c ≤ 'Z'

/-- Match the sentence-boundary regex
`[.!?]+\s+(?=[A-Z]|"[A-Z]|\'[A-Z])` at the start of `l`: a punctuation run,
a whitespace run, and a lookahead for a capital letter, possibly behind a
double or single quote.  Both runs are maximal-munch (the classes exclude
what must follow), so the regex is deterministic.  Returns the consumed
(separator) length. -/
def matchSentSep (l : List Char) : Option Nat :=
  let p := l.takeWhile isSentPunct
  if p.isEmpty then none
  else
    let r := l.drop p.length
    let w := r.takeWhile pyIsSpace
    if w.isEmpty then none
    else
      let look := match r.drop w.length with
        | d :: rest => isUpperAZ d ||
            ((d = '"' || d = '\'') && (match rest with
              | e :: _ => isUpperAZ e
              | [] => false))
        | [] => false
      if look then some (p.length + w.length) else none

/-- Match the paragraph-boundary regex `\n\s*\n` at the start of `l`: a
newline, then (greedily) through the last newline of the following
whitespace run.  Returns the consumed length. -/
def matchParSep (l : List Char) : Option Nat :=
  match l with
  | '\n' :: r =>
    let run := r.takeWhile pyIsSpace
    (match lastIdxOf '\n' run with
     | some i => some (1 + i + 1)
     | none => none)
  | _ => none

/-- Prepend a character to the piece being assembled at the head. -/
def consHead (c : Char) : List (List Char) → List (List Char)
  | [] => [[c]]
  | p :: ps => (c :: p) :: ps

/-- `re.split` for a groupless pattern, given its anchored matcher: pieces
between non-overlapping leftmost matches, separators dropped.  Fuel as in
the other scanners. -/
def reSplitGo (sep : List Char → Option Nat) : Nat → List Char → List (List Char)
  | 0, l => [l]
  | _ + 1, [] => [[]]
  | fuel + 1, c :: t =>
    match sep (c :: t) with
    | some n =>
      if n = 0 then consHead c (reSplitGo sep fuel t)
      else [] :: reSplitGo sep fuel ((c :: t).drop n)
    | none => consHead c (reSplitGo sep fuel t)

/-- `self.sentence_end_pattern.split(text)`. -/
def sentenceSplit (l : List Char) : List (List Char) :=
  reSplitGo matchSentSep (l.length + 1) l

/-- `self.paragraph_pattern.split(text)`. -/
def paragraphSplit (l : List Char) : List (List Char) :=
  reSplitGo matchParSep (l.length + 1) l

/-- The accumulation loop of `split_by_sentences`: strip each sentence,
skip empties, and greedily pack sentences into chunks of at most `maxWords`
words (the running chunk closes when adding the next sentence would exceed
the limit), joining with single spaces. -/
def splitBySentencesGo (maxWords : Nat) (chunks cur : List String) (curCount : Nat) :
    List (List Char) → List String
  | [] => if cur.isEmpty then chunks else chunks ++ [String.intercalate " " cur]
  | s :: rest =>
    let st := pyStripL s
    if st.isEmpty then splitBySentencesGo maxWords chunks cur curCount rest
    else
      let sw := (pySplitWsL st).length
      if !cur.isEmpty && curCount + sw > maxWords then
        splitBySentencesGo maxWords (chunks ++ [String.intercalate " " cur])
          [String.mk st] sw rest
      else splitBySentencesGo maxWords chunks (cur ++ [String.mk st]) (curCount + sw) rest

/-- `TextChunker.split_by_sentences`. -/
def splitBySentences (text : String) (maxWords : Nat) : List String :=
  splitBySentencesGo maxWords [] [] 0 (sentenceSplit text.data)

/-- The accumulation loop of `split_by_paragraphs`: strip each paragraph,
skip empties; an oversized paragraph flushes the running chunk and is
re-split by sentences; otherwise greedy packing as for sentences, joining
with blank lines. -/
def splitByParagraphsGo (maxWords : Nat) (chunks cur : List String) (curCount : Nat) :
    List (List Char) → List String
  | [] => if cur.isEmpty then chunks else chunks ++ [String.intercalate "\n\n" cur]
  | p :: rest =>
    let pt := pyStripL p
    if pt.isEmpty then splitByParagraphsGo maxWords chunks cur curCount rest
    else
      let pw := (pySplitWsL pt).length
      if pw > maxWords then
        let chunks1 := if cur.isEmpty then chunks else chunks ++ [String.intercalate "\n\n" cur]
        let subs := splitBySentences (String.mk pt) maxWords
        splitByParagraphsGo maxWords (chunks1 ++ subs) [] 0 rest
      else if curCount + pw > maxWords then
        let chunks1 := if cur.isEmpty then chunks else chunks ++ [String.intercalate "\n\n" cur]
        splitByParagraphsGo maxWords chunks1 [String.mk pt] pw rest
      else splitByParagraphsGo maxWords chunks (cur ++ [String.mk pt]) (curCount + pw) rest

/-- `TextChunker.split_by_paragraphs`. -/
def splitByParagraphs (text : String) (maxWords : Nat) : List String :=
  splitByParagraphsGo maxWords [] [] 0 (paragraphSplit text.data)

/-- Fixed-size windows over the word list (`range(0, len(words), max_words)`
slicing).  `maxWords = 0` would be a `ValueError` in Python; the
configuration validator enforces `50 ≤ max_chunk_size`, so the zero case is
unreachable and modelled as the empty list. -/
def wordWindowsGo (maxWords : Nat) : Nat → List (List Char) → List String
  | 0, _ => []
  | fuel + 1, words =>
    if maxWords = 0 then []
    else if words.isEmpty then []
    else String.mk (joinWith [' '] (words.take maxWords)) ::
      wordWindowsGo maxWords fuel (words.drop maxWords)

/-- Fixed-size windows (continued): with a positive `maxWords` each step
consumes at least one word, so `length + 1` fuel never runs out. -/
def wordWindows (maxWords : Nat) (words : List (List Char)) : List String :=
  wordWindowsGo maxWords (words.length + 1) words

/-- `TextChunker._split_by_words`. -/
def splitByWordsM (text : String) (maxWords : Nat) : List String :=
  wordWindows maxWords (pySplitWsL text.data)

/-- `TextChunker.add_overlap`: the first chunk is unchanged; every later
chunk is prefixed with the last `overlapWords` words of its predecessor in
the original list (or the whole predecessor when it is shorter), joined by
a single space. -/
def addOverlap (chunks : List String) (overlapWords : Nat) : List String :=
  if overlapWords = 0 || chunks.length ≤ 1 then chunks
  else
    match chunks with
    | [] => []
    | c0 :: _ =>
      c0 :: (List.range (chunks.length - 1)).map (fun i =>
        let prev := chunks.getD i ""
        let cur := chunks.getD (i + 1) ""
        let prevWords := pySplitWsL prev.data
        if prevWords.length > overlapWords then
          String.mk (joinWith [' '] (prevWords.drop (prevWords.length - overlapWords)))
            ++ " " ++ cur
        else prev ++ " " ++ cur)

/-- `TextChunker.count_tokens`: the `tiktoken` encoder is external and
passed as an optional function; without it the source falls back to
`int(word_count * 0.75)` (exact in floats for any realistic count, hence
`3n/4` rounded down). -/
def countTokens (tokenizer : Option (String → Nat)) (text : String) : Nat :=
  match tokenizer with
  | some enc => enc text
  | none => wordCount text * 3 / 4

/-- The `Chunk(...)` constructor call in `chunk_text`, with the pydantic
validators of the modelled fields: `source_id` is a required `UUID` (a
`None` raises a `ValidationError`), chunk text must be non-blank, and
`end_char` must exceed `start_char`.  The fresh `uuid4` id is modelled as
the chunk's index rendered as a string. -/
def mkChunk (sourceId : Option String) (text : String) (tokenCount wc index startChar endChar : Nat) :
    Except String Chunk :=
  match sourceId with
  | none => .error "ValidationError: source_id requires a UUID, got None"
  | some sid =>
    if pyStrip text = "" then .error "ValidationError: Chunk text cannot be empty"
    else if endChar ≤ startChar then
      .error "ValidationError: end_char must be greater than start_char"
    else .ok { id := toString index, sourceId := sid, text := pyStrip text,
               tokenCount := tokenCount, wordCountF := wc, index := index,
               startChar := startChar, endChar := endChar }

/-- The chunk-building loop of `chunk_text`: for each filtered chunk text,
strip it (skipping empties), locate its first 50 characters in the stripped
source text from the running cursor (falling back to the cursor on a failed
search), and construct a `Chunk`.  The first `ValidationError` propagates
(there is no handler in `chunk_text`). -/
def buildChunksGo (tokenizer : Option (String → Nat)) (sourceId : Option String)
    (t : List Char) : Nat → Nat → List String → Except String (List Chunk)
  | _, _, [] => .ok []
  | i, charPos, ct :: rest =>
    let cts := pyStripL ct.data
    if cts.isEmpty then buildChunksGo tokenizer sourceId t (i + 1) charPos rest
    else
      let startPos := match pyFindFrom t (cts.take 50) charPos with
        | some p => p
        | none => charPos
      let endPos := startPos + cts.length
      match mkChunk sourceId (String.mk cts) (countTokens tokenizer (String.mk cts))
          (wordCount (String.mk cts)) i startPos endPos with
      | .error e => .error e
      | .ok chunk =>
        match buildChunksGo tokenizer sourceId t (i + 1) endPos rest with
        | .ok cs => .ok (chunk :: cs)
        | .error e => .error e

/-- `TextChunker.chunk_text`, parameterized by the three
`settings.text_processing` sizes it reads and the optional tokenizer.
An `.error` models an exception escaping `chunk_text`. -/
def chunkText (tokenizer : Option (String → Nat)) (maxWords minWords overlapWords : Nat)
    (text : String) (sourceId : Option String) (method : String) :
    Except String (List Chunk) :=
  if pyStrip text = "" then .ok []
  else
    let t := pyStripL text.data
    let raw :=
      if method = "paragraph" then splitByParagraphs (String.mk t) maxWords
      else if method = "sentence" then splitBySentences (String.mk t) maxWords
      else splitByWordsM (String.mk t) maxWords
    let raw2 := if overlapWords > 0 then addOverlap raw overlapWords else raw
    let filtered := raw2.filter (fun c => minWords ≤ wordCount c)
    buildChunksGo tokenizer sourceId t 0 0 filtered

/-- `chunk_text` under the default configuration: `max_chunk_size = 200`,
`min_chunk_size = 20`, `chunk_overlap = 50` (config.py defaults), without a
loaded tokenizer. -/
def chunkTextDefault (text : String) (sourceId : Option String) (method : String) :
    Except String (List Chunk) :=
  chunkText none 200 20 50 text sourceId method

/-! ### Summary combination (llm/summarize.py)

`SummaryCombiner`: `ai_combine`, `_direct_combine`, `_hierarchical_combine`
and `hybrid_combine`.  The LLM client is modelled as an oracle indexed by a
call counter; each embedded function threads the counter and also returns
the trace of LLM calls it issued, so dispatch claims (which strategy ran,
with which inputs) are observable. -/

/-- Outcome of one `chat_completion` call: an exception, a falsy response
object, or a response with the given `content` string. -/
inductive LLMOutcome where
  | raises
  | returns (content : Option String)
deriving DecidableEq, Inhabited

/-- The LLM client: outcome of the `n`-th call made. -/
def Oracle : Type :=
  Nat → LLMOutcome

/-- One recorded LLM call: a direct combination of the given summaries
toward the target length, or one hierarchical group merge. -/
inductive CallEvent where
  | direct (summaries : List String) (target : Nat) (prompt : String)
  | merge (group : List String) (prompt : String)
deriving DecidableEq, Inhabited

/-- The `_direct_combine` prompt (f-string), verbatim. -/
def directPrompt (summaries : List String) (target : Nat) : String :=
  let summariesText := String.intercalate "\n\n"
    (summaries.enum.map (fun p => "Section " ++ toString (p.1 + 1) ++ ": " ++ p.2))
  "I have " ++ toString summaries.length ++
  " partial summaries from different sections of a document. Please combine them into ONE coherent, comprehensive final summary of approximately " ++
  toString target ++ " words.\n\nCRITICAL: Write the final summary in the SAME LANGUAGE as the partial summaries. Do not translate or change the language.\n\nYour task:\n1. Remove redundancy and repetition between sections\n2. Maintain all key information and important details\n3. Create a flowing, cohesive narrative (not numbered sections)\n4. Write in the same language as the source summaries\n5. Aim for about " ++
  toString target ++ " words\n\nPartial summaries to combine:\n" ++ summariesText ++
  "\n\nCombined Final Summary:"

/-- `SummaryCombiner._direct_combine`: one LLM call; a truthy, non-blank
response is stripped and has the `Combined Final Summary:` /
`Final Summary:` markers removed; everything else yields `None`. -/
def directCombine (oracle : Oracle) (k : Nat) (summaries : List String) (target : Nat) :
    Option String × Nat × List CallEvent :=
  let prompt := directPrompt summaries target
  let ev := CallEvent.direct summaries target prompt
  match oracle k with
  | .raises => (none, k + 1, [ev])
  | .returns none => (none, k + 1, [ev])
  | .returns (some content) =>
    if pyStrip content = "" then (none, k + 1, [ev])
    else
      let result := pyStrip content
      let result := pyStrip (pyReplace result "Combined Final Summary:" "")
      let result := pyStrip (pyReplace result "Final Summary:" "")
      (some result, k + 1, [ev])

/-- The `_hierarchical_combine` group-merge prompt (f-string), verbatim. -/
def mergePrompt (group : List String) : String :=
  let groupText := String.intercalate "\n\n"
    (group.enum.map (fun p => "Part " ++ toString (p.1 + 1) ++ ": " ++ p.2))
  "Combine these " ++ toString group.length ++
  " summaries into one cohesive summary. Maintain key information and write in the same language as the source text:\n\n" ++
  groupText ++ "\n\nCohesive Summary:"

/-- The stage-1 grouping loop `for i in range(0, len(summaries), 8)` with
`group_size = 8`: the slices `summaries[i:i+8]`, one per loop iteration
(`range(0, n, 8)` has `⌈n/8⌉` elements). -/
def groupsOf8 (summaries : List String) : List (List String) :=
  (List.range ((summaries.length + 7) / 8)).map
    (fun i => (summaries.drop (8 * i)).take 8)

/-- The contribution of one stage-1 group whose LLM call has counter index
`k`: an exception falls back to the `'. '.join(group)` concatenation; a
falsy response or blank content contributes nothing; any other response
contributes its stripped content. -/
def mergeOutcome (oracle : Oracle) (k : Nat) (g : List String) : Option String :=
  match oracle k with
  | .raises => some (String.intercalate ". " g)
  | .returns none => none
  | .returns (some content) =>
    if pyStrip content = "" then none else some (pyStrip content)

/-- Stage 1 of `_hierarchical_combine`: one merge call per group, in group
order (so the `i`-th group consumes call `k + i`), collecting the
intermediate summaries, the advanced counter, and the merge-call trace. -/
def hierStage1 (oracle : Oracle) (k : Nat) (groups : List (List String)) :
    List String × Nat × List CallEvent :=
  ((groups.enum.map (fun p => mergeOutcome oracle (k + p.1) p.2)).reduceOption,
   k + groups.length,
   groups.map (fun g => CallEvent.merge g (mergePrompt g)))

/-- `SummaryCombiner._hierarchical_combine`: group merges (stage 1), then
return a single intermediate directly, direct-combine up to five, or recurse
while more than five remain.  (Each group yields at most one intermediate,
so the recursion argument shrinks from above five to at most a ninth.) -/
def hierarchicalCombine (oracle : Oracle) (k : Nat) (summaries : List String) (target : Nat) :
    Option String × Nat × List CallEvent :=
  if (hierStage1 oracle k (groupsOf8 summaries)).1.length = 1 then
    (some ((hierStage1 oracle k (groupsOf8 summaries)).1.headD ""),
     (hierStage1 oracle k (groupsOf8 summaries)).2.1,
     (hierStage1 oracle k (groupsOf8 summaries)).2.2)
  else if (hierStage1 oracle k (groupsOf8 summaries)).1.length ≤ 5 then
    let s1 := hierStage1 oracle k (groupsOf8 summaries)
    let d := directCombine oracle s1.2.1 s1.1 target
    (d.1, d.2.1, s1.2.2 ++ d.2.2)
  else
    let s1 := hierStage1 oracle k (groupsOf8 summaries)
    let rcall := hierarchicalCombine oracle s1.2.1 s1.1 target
    (rcall.1, rcall.2.1, s1.2.2 ++ rcall.2.2)
termination_by summaries.length
decreasing_by
  have hb := List.reduceOption_length_le
    ((groupsOf8 summaries).enum.map (fun p => mergeOutcome oracle (k + p.1) p.2))
  simp only [hierStage1, groupsOf8, List.length_map, List.enum_length,
    List.length_range] at *
  omega

/-- The UUID regex hex class `[a-f0-9]`. -/
def isHexLower (c : Char) : Bool :=
  isDigitCh c || ('a' ≤ c && c ≤ 'f')

/-- Require exactly `n` hex characters. -/
def eatHex (n : Nat) (l : List Char) : Option (List Char) :=
  if (l.take n).length = n && (l.take n).all isHexLower then some (l.drop n) else none

/-- Match the UUID pattern
`[a-f0-9]{8}-[a-f0-9]{4}-[a-f0-9]{4}-[a-f0-9]{4}-[a-f0-9]{12}` at the start
of `l` (fixed counts, so no backtracking); a match is 36 characters. -/
def matchUuidAt (l : List Char) : Option Nat := do
  let r1 ← eatHex 8 l
  let r2 ← eatCh '-' r1
  let r3 ← eatHex 4 r2
  let r4 ← eatCh '-' r3
  let r5 ← eatHex 4 r4
  let r6 ← eatCh '-' r5
  let r7 ← eatHex 4 r6
  let r8 ← eatCh '-' r7
  let _ ← eatHex 12 r8
  pure 36

/-- `re.sub(uuid_pattern, '', cleaned)`: delete every UUID occurrence. -/
def subUuidsGo : Nat → List Char → List Char
  | 0, l => l
  | _ + 1, [] => []
  | fuel + 1, c :: t =>
    match matchUuidAt (c :: t) with
    | some n => subUuidsGo fuel ((c :: t).drop n)
    | none => c :: subUuidsGo fuel t

/-- `re.sub(uuid_pattern, '', s)` on strings. -/
def subUuids (s : String) : String :=
  String.mk (subUuidsGo (s.data.length + 1) s.data)

/-- The per-summary cleanup loop of `ai_combine`: drop `### Summary` /
`Chunk ID` markers and UUIDs, strip, and keep only results longer than 10
characters. -/
def cleanOneSummary (s : String) : Option String :=
  let c1 := pyReplace (pyReplace s "### Summary" "") "**Chunk ID:**" ""
  let c2 := pyStrip (pyReplace c1 "Chunk ID:" "")
  let c3 := pyStrip (subUuids c2)
  if c3 ≠ "" ∧ c3.length > 10 then some c3 else none

/-- `[s.strip() for s in summaries if s and s.strip()]`. -/
def validSummariesOf (summaries : List String) : List String :=
  summaries.filterMap (fun s =>
    if s ≠ "" ∧ pyStrip s ≠ "" then some (pyStrip s) else none)

/-- `SummaryCombiner.ai_combine`: sentinels for no/invalid summaries, a
single valid summary verbatim, and otherwise a dispatch on the cleaned
summary count: more than 20 go hierarchical, the rest direct. -/
def aiCombine (oracle : Oracle) (k : Nat) (summaries : List String) (target : Nat) :
    Option String × Nat × List CallEvent :=
  if summaries.isEmpty then (some "No summaries to combine.", k, [])
  else
    let valid := validSummariesOf summaries
    if valid.isEmpty then (some "No valid summaries found.", k, [])
    else if valid.length = 1 then (some (valid.headD ""), k, [])
    else
      let cleaned := valid.filterMap cleanOneSummary
      if cleaned.length > 20 then hierarchicalCombine oracle k cleaned target
      else directCombine oracle k cleaned target

/-- The fallback sentence de-duplication of `hybrid_combine`: keep a
sentence unless its lowercase form is a substring of an already-kept
sentence's lowercase form, in first-seen order. -/
def keepNonSub (acc : List String) : List String → List String
  | [] => acc
  | s :: rest =>
    if s ≠ "" ∧ ¬(acc.any (fun e => occursIn (pyLower s).data (pyLower e).data))
    then keepNonSub (acc ++ [s]) rest
    else keepNonSub acc rest

/-- The concatenation fallback of `hybrid_combine`: join the valid
summaries with spaces, split into `.`-terminated sentences, de-duplicate,
re-join with `'. '` and a final period (empty when nothing survives). -/
def dedupJoin (valid : List String) : String :=
  let combined := joinWith [' '] (valid.map String.data)
  let sentences := (splitOnChar '.' combined).filterMap (fun s =>
    let st := pyStripL s
    if st.isEmpty then none else some (String.mk st))
  let unique := keepNonSub [] sentences
  String.intercalate ". " unique ++ (if unique.isEmpty then "" else ".")

/-- `SummaryCombiner.hybrid_combine`: sentinels, then the AI attempt (kept
only when truthy and longer than 30 characters once stripped), then the
single-summary shortcut, then the de-duplicating concatenation fallback. -/
def hybridCombine (oracle : Oracle) (k : Nat) (summaries : List String)
    (useAi : Bool) (target : Nat) : String × Nat × List CallEvent :=
  if summaries.isEmpty then ("No summaries to combine.", k, [])
  else
    let valid := validSummariesOf summaries
    if valid.isEmpty then ("No valid summaries found.", k, [])
    else if useAi ∧ 1 < valid.length then
      let a := aiCombine oracle k summaries target
      match a.1 with
      | some r =>
        if r ≠ "" ∧ 30 < (pyStrip r).length then (r, a.2.1, a.2.2)
        else if valid.length = 1 then (valid.headD "", a.2.1, a.2.2)
        else (dedupJoin valid, a.2.1, a.2.2)
      | none =>
        if valid.length = 1 then (valid.headD "", a.2.1, a.2.2)
        else (dedupJoin valid, a.2.1, a.2.2)
    else if valid.length = 1 then (valid.headD "", k, [])
    else (dedupJoin valid, k, [])

/-! ### Deck duplicate removal (schemas.py) -/

/-- The duplicate key of `Deck.remove_duplicates`:
`(card.front.lower().strip(), card.back.lower().strip())`. -/
def cardKey (card : Card) : String × String :=
  (pyStrip (pyLower card.front), pyStrip (pyLower card.back))

/-- The `seen`-set loop of `Deck.remove_duplicates`. -/
def removeDuplicatesGo (seen : List (String × String)) : List Card → List Card
  | [] => []
  | c :: cs =>
    if seen.contains (cardKey c) then removeDuplicatesGo seen cs
    else c :: removeDuplicatesGo (cardKey c :: seen) cs

/-- `Deck.remove_duplicates` on the deck's card list: the de-duplicated
list (which the method installs as `self.cards`) and the returned removed
count `len(self.cards) - len(unique_cards)`. -/
def removeDuplicates (cards : List Card) : List Card × Nat :=
  let u := removeDuplicatesGo [] cards
  (u, cards.length - u.length)

/-- Specification-side reading of "keep exactly the first occurrence of
each normalized key, in the original order". -/
def keepFirstOccurrences : List Card → List Card
  | [] => []
  | c :: cs => c :: keepFirstOccurrences (cs.filter (fun d => cardKey d != cardKey c))
termination_by l => l.length
decreasing_by
  have h := List.length_filter_le (fun d => cardKey d != cardKey c) cs
  simp
  omega

/-! ### Auxiliary notions for the statements and proofs

Run-length encodings (for reasoning about the punctuation collapses),
normal-form predicates for whitespace, event discriminators, and the
concrete fixtures the claims mention. -/

/-- Accumulator loop of `toRuns`: `(c, k)` is the open run. -/
def toRunsAux (c : Char) (k : Nat) : List Char → List (Char × Nat)
  | [] => [(c, k)]
  | d :: ds => if d = c then toRunsAux c (k + 1) ds else (c, k) :: toRunsAux d 1 ds

/-- Run-length encoding of a character list. -/
def toRuns : List Char → List (Char × Nat)
  | [] => []
  | c :: cs => toRunsAux c 1 cs

/-- Decoding of a run-length encoding. -/
def fromRuns (rs : List (Char × Nat)) : List Char :=
  rs.flatMap (fun p => List.replicate p.2 p.1)

/-- A well-formed run list: positive counts, adjacent runs of distinct
characters. -/
def ValidRuns (rs : List (Char × Nat)) : Prop :=
  (∀ p ∈ rs, 1 ≤ p.2) ∧ List.Chain' (fun p q => p.1 ≠ q.1) rs

/-- The action of `collapseRuns β thr (replicate r β)` on one run. -/
def collapseRun (β : Char) (thr r : Nat) (p : Char × Nat) : Char × Nat :=
  if p.1 = β ∧ thr ≤ p.2 then (β, r) else p

/-- Whitespace-normal form: every whitespace character is a plain space and
no two adjacent characters are both whitespace — the shape the `\s+ → ' '`
substitution produces. -/
def SpaceNormal (l : List Char) : Prop :=
  (∀ c ∈ l, pyIsSpace c = true → c = ' ') ∧
    List.Chain' (fun a b => ¬(pyIsSpace a = true ∧ pyIsSpace b = true)) l

/-- Is a recorded LLM call a hierarchical group merge? -/
def isMergeEvent : CallEvent → Bool
  | .merge _ _ => true
  | .direct _ _ _ => false

/-- The truncated model output of the claim (cut mid-object). -/
def truncExample : String :=
  "\x7b\"cards\":[\x7b\"front\":\"Q1?\",\"back\":\"A1\",\"chunk_id\":\"c1\"\x7d,\x7b\"front\":\"Q2?\",\"back\":\"A2\",\"chunk_id\":\"c1\"\x7d,\x7b\"fr"

/-- A concrete chunk for exercising the response parser. -/
def exampleChunk : Chunk :=
  { id := "c1", sourceId := "s1", text := "Some chunk text.", tokenCount := 3,
    wordCountF := 3, index := 0, startChar := 0, endChar := 16 }

/-- A response whose only card entry carries an unrecognized difficulty. -/
def unrecognizedDifficultyResponse : String :=
  "\x7b\"cards\":[\x7b\"front\":\"What is X?\",\"back\":\"An example answer.\",\"difficulty\":\"extreme\"\x7d]\x7d"

/-- Twenty whitespace-separated words (the default `min_chunk_size` is 20,
so this text survives the short-chunk filter). -/
def twentyWords : String :=
  "alpha beta gamma delta epsilon zeta eta theta iota kappa lambda mu nu xi omicron pi rho sigma tau upsilon"

/-- A generated summary fixture of more than 10 characters. -/
def summaryFix (i : Nat) : String :=
  "This is chunk summary number " ++ toString i ++ " with adequate length."

/-- Twenty-five non-empty summaries, all longer than 10 characters. -/
def summaries25 : List String :=
  (List.range 25).map summaryFix

/-- Twenty-one valid (non-empty) summaries of which one is at most 10
characters long, so the combiner's cleanup keeps only 20. -/
def summaries21 : List String :=
  "tiny" :: (List.range 20).map summaryFix

/-- An oracle whose calls always return long, non-blank content. -/
def oracleAllGood : Oracle := fun _ =>
  .returns (some "This is a reasonably long combined summary produced for testing purposes only.")

/-- An oracle whose calls always return a falsy response object. -/
def oracleNoResponse : Oracle := fun _ => .returns none

/-- The rejected validation example: front `"Hi?"` is 3 characters. -/
def hiCard : Card :=
  { front := "Hi?", back := "Hello there friend.", cardType := .basic, tags := [],
    sourceId := none, chunkId := none, difficulty := none }

/-- The kept validation example. -/
def polyCard : Card :=
  { front := "What is polymorphism?", back := "Ability to take many forms.",
    cardType := .basic, tags := [], sourceId := none, chunkId := none,
    difficulty := none }

/-! ## Claims

One theorem per claim (with witnesses/counterexamples where required),
following the frozen claim list. -/

/-- C1 (failing-input evaluation): with whitespace normalization enabled
(the default), `clean_text` does not preserve the paragraph break of
`"one\n\ntwo"`: the `\s+ → ' '` substitution runs before the line-based
logic and replaces every newline with a space, so the output is
`"one two"`, and `normalize_whitespace` alone already destroys the blank
line. -/
theorem clean_text_drops_paragraph_breaks :
    cleanTextDefault "one\n\ntwo" = "one two" ∧
    (cleanTextDefault "one\n\ntwo").data.contains '\n' = false ∧
    normalizeWhitespace "one\n\ntwo" = "one two" := by
  refine ⟨by decide, by decide, by decide⟩

/-- C5 (failing-input evaluation): the built-in default template's
placeholders are `\x7btext_content\x7d`/`\x7bmax_cards\x7d` — not the
`\x7btext\x7d`/`\x7bchunk_id\x7d` the external template uses — so
`_create_generation_prompt` (which formats with `text` and `chunk_id`
keywords only) raises `KeyError('max_cards')` for every chunk text and
chunk id instead of producing a prompt. -/
theorem default_template_prompt_construction_raises :
    (∀ chunkText chunkId : String,
      createGenerationPrompt chunkText chunkId = .error "max_cards") ∧
    pyContains "{text}" getDefaultPromptTemplate = false ∧
    pyContains "{chunk_id}" getDefaultPromptTemplate = false ∧
    pyContains "{text_content}" getDefaultPromptTemplate = true ∧
    pyContains "{max_cards}" getDefaultPromptTemplate = true := by
  refine ⟨fun _ _ => rfl, by decide, by decide, by decide, by decide⟩

/-- C6 (counterexample): `clean_text` is not idempotent.  On `"a— b"` the
first pass normalizes the em dash to `"a- b"`; the second pass's
hyphenation repair then collapses that to `"ab"`. -/
theorem clean_text_not_idempotent :
    cleanTextDefault (cleanTextDefault "a— b") ≠ cleanTextDefault "a— b" ∧
    cleanTextDefault "a— b" = "a- b" ∧
    cleanTextDefault (cleanTextDefault "a— b") = "ab" := by
  refine ⟨by decide, by decide, by decide⟩

/-- C7 (failing-input evaluation): with the default (and annotated)
`source_id=None`, `chunk_text` raises a pydantic `ValidationError` as soon
as any chunk is constructed (`Chunk.source_id` is a required `UUID`), so it
does not hold for every input string that chunking never raises; blank
input still yields an empty chunk list, and with a real source id the same
call succeeds. -/
theorem chunk_text_raises_on_default_source_id :
    chunkTextDefault twentyWords none "word" =
      .error "ValidationError: source_id requires a UUID, got None" ∧
    chunkTextDefault "   \n  " none "paragraph" = .ok [] ∧
    chunkTextDefault "" none "sentence" = .ok [] ∧
    chunkTextDefault twentyWords (some "src-1") "word" =
      .ok [{ id := "0", sourceId := "src-1", text := twentyWords,
             tokenCount := 15, wordCountF := 20, index := 0, startChar := 0,
             endChar := 105 }] := by
  refine ⟨rfl, rfl, rfl, rfl⟩

/-- C9 (counterexample): a parsed entry with non-empty front and back but
the unrecognized difficulty `"extreme"` is not produced with difficulty
`"medium"` — pydantic rejects the value, the entry is skipped, and the
response yields no cards at all. -/
theorem unrecognized_difficulty_skips_card :
    parseLlmResponse unrecognizedDifficultyResponse exampleChunk = [] := by
  decide

/-- C3 (counterexample): 21 valid (non-empty) summaries — more than 20 —
can still take the single-call direct path, because the `> 20` dispatch
counts the cleaned summaries (those longer than 10 characters after marker
and UUID removal): with `"tiny"` among them only 20 survive cleanup, and
the trace holds exactly one call, which is not a merge. -/
theorem twentyone_valid_summaries_direct_combined :
    20 < (validSummariesOf summaries21).length ∧
    (∀ s ∈ summaries21, s ≠ "") ∧
    ((aiCombine oracleAllGood 0 summaries21 300).2.2).map isMergeEvent = [false] := by
  refine ⟨by decide, by decide, by decide⟩

/-- C4 (counterexample): with summaries `[".", "."]` — both non-empty — and
an LLM whose combination attempt returns nothing, `hybrid_combine` returns
the empty string: the fallback splits on periods, finds no non-blank
sentence, and joins nothing. -/
theorem hybrid_combine_returns_empty_on_dot_summaries :
    (hybridCombine oracleNoResponse 0 [".", "."] true 300).1 = "" ∧
    pyStrip "." ≠ "" := by
  refine ⟨by decide, by decide⟩

/-- C2: on the truncated model output the parser recovers exactly the two
complete card objects (discarding the partial third); and in general, when
direct JSON parsing of the extracted candidate text fails and the truncated
recovery finds anything, the parser's result is exactly the recovered
objects — every successfully re-parsed pattern match — assembled into the
synthetic cards list and processed entry by entry. -/
theorem truncated_response_recovers_complete_cards :
    parseLlmResponse truncExample exampleChunk =
      [{ front := "Q1?", back := "A1", cardType := .basic, tags := [],
         sourceId := some "s1", chunkId := some "c1",
         difficulty := some .medium },
       { front := "Q2?", back := "A2", cardType := .basic, tags := [],
         sourceId := some "s1", chunkId := some "c1",
         difficulty := some .medium }] ∧
    (∀ (rt : String) (chunk : Chunk),
      jsonLoads (jsonTextOf rt) = none →
      recoveredCardsOf (jsonTextOf rt) ≠ [] →
      parseLlmResponse rt chunk =
        (recoveredCardsOf (jsonTextOf rt)).filterMap (processEntry chunk)) := by
  constructor
  · decide
  · intro rt chunk h1 h2
    have hne : (recoveredCardsOf (jsonTextOf rt)).isEmpty = false := by
      simpa [List.isEmpty_iff] using h2
    simp [parseLlmResponse, h1, parseTruncatedJson, hne, cardsDataOf, jsonLookup]

/-- Witness for the general part of the recovery theorem, at the truncated
example: direct parsing fails, the recovery is non-empty, and the parser
returns the processed recovered objects. -/
theorem truncated_response_recovers_complete_cards_witness :
    jsonLoads (jsonTextOf truncExample) = none ∧
    recoveredCardsOf (jsonTextOf truncExample) ≠ [] ∧
    parseLlmResponse truncExample exampleChunk =
      (recoveredCardsOf (jsonTextOf truncExample)).filterMap
        (processEntry exampleChunk) := by
  have h1 : jsonLoads (jsonTextOf truncExample) = none := rfl
  have h2 : recoveredCardsOf (jsonTextOf truncExample) ≠ [] := by
    intro h
    have hlen : (recoveredCardsOf (jsonTextOf truncExample)).length = 2 := rfl
    rw [h] at hlen
    simp at hlen
  exact ⟨h1, h2,
    truncated_response_recovers_complete_cards.2 truncExample exampleChunk h1 h2⟩

/-- C8: `validate_cards` keeps exactly the cards with front at least 10
characters, back at least 5, front not starting with a generic stem, and
neither lowercased side a substring of the other; `"Hi?"` is rejected and
the polymorphism card is kept. -/
theorem validate_cards_keeps_exactly_quality_cards :
    (∀ cards : List Card, validateCards cards = cards.filter (fun card =>
      decide (10 ≤ card.front.length) && decide (5 ≤ card.back.length) &&
      !(genericStarters.any (fun st => leadsWith st.data (pyLower card.front).data)) &&
      !occursIn (pyLower card.front).data (pyLower card.back).data &&
      !occursIn (pyLower card.back).data (pyLower card.front).data)) ∧
    validateCards [hiCard] = [] ∧
    validateCards [polyCard] = [polyCard] := by
  refine ⟨?_, by decide, by decide⟩
  intro cards
  unfold validateCards
  apply List.filter_congr
  intro c _
  by_cases h1 : 10 ≤ c.front.length
  · by_cases h2 : 5 ≤ c.back.length
    · have hf : ¬(c.front = "") := by
        intro h
        rw [h] at h1
        simp at h1
      have hb : ¬(c.back = "") := by
        intro h
        rw [h] at h2
        simp at h2
      simp [isLowQualityCard, hf, hb, h1, h2, Nat.not_lt.mpr h1, Nat.not_lt.mpr h2,
        Bool.and_assoc]
    · simp [h2, Nat.lt_of_not_le h2]
  · simp [h1, Nat.lt_of_not_le h1]

/-- Equivalence of the `seen`-set loop with the specification recursion:
running the loop with `seen` pre-seeded equals keeping first occurrences
among the cards whose key is not yet seen. -/
theorem removeDuplicatesGo_eq_keepFirst (cards : List Card) :
    ∀ seen : List (String × String),
      removeDuplicatesGo seen cards =
        keepFirstOccurrences (cards.filter (fun c => !(seen.contains (cardKey c)))) := by
  induction cards with
  | nil => intro seen; simp [removeDuplicatesGo, keepFirstOccurrences]
  | cons c cs ih =>
    intro seen
    by_cases hc : seen.contains (cardKey c) = true
    · rw [List.filter_cons]
      simp only [removeDuplicatesGo, hc, if_true, Bool.not_true, Bool.false_eq_true,
        if_neg, not_false_eq_true, reduceCtorEq]
      exact ih seen
    · have hc' : seen.contains (cardKey c) = false := by simpa using hc
      rw [List.filter_cons]
      simp only [removeDuplicatesGo, hc', Bool.false_eq_true, if_neg,
        not_false_eq_true, Bool.not_false, if_true]
      rw [keepFirstOccurrences, ih (cardKey c :: seen), List.filter_filter]
      congr 1
      congr 1
      apply List.filter_congr
      intro d _
      by_cases h : cardKey d = cardKey c <;>
        simp [List.contains_cons, Bool.not_or, Bool.and_comm, bne, h]

/-- Members of the kept-first-occurrences list come from the input. -/
theorem mem_keepFirstOccurrences {x : Card} :
    ∀ l : List Card, x ∈ keepFirstOccurrences l → x ∈ l := by
  intro l
  induction l using keepFirstOccurrences.induct with
  | case1 => simp [keepFirstOccurrences]
  | case2 c cs ih =>
    rw [keepFirstOccurrences]
    intro h
    rcases List.mem_cons.mp h with h | h
    · exact h ▸ List.mem_cons_self _ _
    · exact List.mem_cons_of_mem _ (List.mem_of_mem_filter (ih h))

/-- The kept-first-occurrences list is a subsequence of the input. -/
theorem keepFirstOccurrences_sublist :
    ∀ l : List Card, (keepFirstOccurrences l).Sublist l := by
  intro l
  induction l using keepFirstOccurrences.induct with
  | case1 => simp [keepFirstOccurrences]
  | case2 c cs ih =>
    rw [keepFirstOccurrences]
    exact List.Sublist.cons₂ c (ih.trans (List.filter_sublist cs))

/-- The kept-first-occurrences list has pairwise distinct keys. -/
theorem keepFirstOccurrences_nodup_keys :
    ∀ l : List Card, ((keepFirstOccurrences l).map cardKey).Nodup := by
  intro l
  induction l using keepFirstOccurrences.induct with
  | case1 => simp [keepFirstOccurrences]
  | case2 c cs ih =>
    rw [keepFirstOccurrences]
    simp only [List.map_cons, List.nodup_cons]
    refine ⟨?_, ih⟩
    intro hmem
    rcases List.mem_map.mp hmem with ⟨d, hd, hkey⟩
    have := List.of_mem_filter (mem_keepFirstOccurrences _ hd)
    simp [bne, hkey] at this

/-- C10: `remove_duplicates` keeps exactly the first occurrence of each
normalized `(front, back)` key in the original order (equivalently, the
result is the specification recursion `keepFirstOccurrences`), leaves the
kept keys pairwise distinct, returns a subsequence of the original card
list, and reports exactly the number of cards removed. -/
theorem remove_duplicates_first_occurrences :
    ∀ cards : List Card,
      (removeDuplicates cards).1 = keepFirstOccurrences cards ∧
      ((removeDuplicates cards).1.map cardKey).Nodup ∧
      (removeDuplicates cards).1.Sublist cards ∧
      (removeDuplicates cards).2 = cards.length - (removeDuplicates cards).1.length := by
  intro cards
  have heq : (removeDuplicates cards).1 = keepFirstOccurrences cards := by
    simp only [removeDuplicates]
    rw [removeDuplicatesGo_eq_keepFirst]
    congr 1
    simp
  refine ⟨heq, ?_, ?_, rfl⟩
  · rw [heq]; exact keepFirstOccurrences_nodup_keys cards
  · rw [heq]; exact keepFirstOccurrences_sublist cards

/-- C9 (amended): an entry with non-empty (after stripping) string front
and back and no difficulty key yields a card whose difficulty defaults to
`medium`; an entry whose difficulty key holds an unrecognized string is
rejected by the `Card` validation and skipped, whatever its other fields
hold. -/
theorem difficulty_absent_defaults_medium_unrecognized_skips :
    (∀ (chunk : Chunk) (ms : List (String × Json)) (f b : String),
      jsonLookup ms "front" = some (.str f) →
      jsonLookup ms "back" = some (.str b) →
      jsonLookup ms "difficulty" = none →
      pyStrip f ≠ "" → pyStrip b ≠ "" →
      processEntry chunk (.obj ms) =
        some { front := pyStrip f, back := pyStrip b, cardType := .basic,
               tags := [], sourceId := some chunk.sourceId,
               chunkId := some chunk.id, difficulty := some .medium }) ∧
    (∀ (chunk : Chunk) (ms : List (String × Json)) (d : String),
      jsonLookup ms "difficulty" = some (.str d) →
      d ≠ "easy" → d ≠ "medium" → d ≠ "hard" →
      processEntry chunk (.obj ms) = none) := by
  constructor
  · intro chunk ms f b hf hb hd hsf hsb
    have hfne : f ≠ "" := by
      intro h
      apply hsf
      rw [h]
      rfl
    have hbne : b ≠ "" := by
      intro h
      apply hsb
      rw [h]
      rfl
    simp [processEntry, hf, hb, hd, pyTruthy, hfne, hbne, hsf, hsb,
      pydanticDifficulty]
  · intro chunk ms d hd hde hdm hdh
    have hpd : pydanticDifficulty (.str d) = none := by
      simp [pydanticDifficulty, hde, hdm, hdh]
    simp only [processEntry, hd, Option.getD_some]
    split
    · rfl
    · split
      · rename_i f b _ _
        split
        · rfl
        · rw [hpd]
      · rfl

/-- Witness for the difficulty theorem: a concrete entry without a
difficulty key produces a medium card, and the same entry with difficulty
`"extreme"` is skipped. -/
theorem difficulty_absent_defaults_medium_unrecognized_skips_witness :
    processEntry exampleChunk
      (.obj [("front", .str "What is X?"), ("back", .str "An answer.")]) =
      some { front := "What is X?", back := "An answer.", cardType := .basic,
             tags := [], sourceId := some "s1", chunkId := some "c1",
             difficulty := some .medium } ∧
    processEntry exampleChunk
      (.obj [("front", .str "What is X?"), ("back", .str "An answer."),
             ("difficulty", .str "extreme")]) = none := by
  constructor
  · exact difficulty_absent_defaults_medium_unrecognized_skips.1 exampleChunk
      [("front", .str "What is X?"), ("back", .str "An answer.")]
      "What is X?" "An answer." rfl rfl rfl (by decide) (by decide)
  · exact difficulty_absent_defaults_medium_unrecognized_skips.2 exampleChunk
      [("front", .str "What is X?"), ("back", .str "An answer."),
       ("difficulty", .str "extreme")]
      "extreme" rfl (by decide) (by decide) (by decide)

/-- A direct combination issues exactly one LLM call and records exactly
one direct-call event, whatever the outcome. -/
theorem directCombine_trace (oracle : Oracle) (k : Nat) (s : List String) (t : Nat) :
    (directCombine oracle k s t).2.1 = k + 1 ∧
    (directCombine oracle k s t).2.2 = [.direct s t (directPrompt s t)] := by
  unfold directCombine
  rcases oracle k with _ | c
  · exact ⟨rfl, rfl⟩
  · rcases c with _ | c
    · exact ⟨rfl, rfl⟩
    · by_cases hc : pyStrip c = "" <;> simp [hc]

/-- When every call returns non-blank content, stage 1 produces exactly one
intermediate summary per group. -/
theorem hierStage1_length_of_good (oracle : Oracle)
    (hGood : ∀ n, ∃ s, oracle n = .returns (some s) ∧ pyStrip s ≠ "")
    (k : Nat) (groups : List (List String)) :
    (hierStage1 oracle k groups).1.length = groups.length := by
  unfold hierStage1
  simp only
  rw [List.reduceOption_length_eq_iff.mpr, List.length_map, List.enum_length]
  intro x hx
  rcases List.mem_map.mp hx with ⟨p, _, hp⟩
  rcases hGood (k + p.1) with ⟨s, hs, hsne⟩
  rw [← hp]
  unfold mergeOutcome
  rw [hs]
  simp [hsne]

/-- C3 (amended): the combiner's dispatch, keyed on the cleaned-summary
count.  An empty list returns the fixed sentinel with no LLM calls; exactly
one valid summary is returned verbatim with no calls; with at least two
valid summaries, at most 20 cleaned summaries go through one direct
combination; and on the 25 long non-empty summaries (25 cleaned, hence
more than 20) with an LLM returning non-blank content, the run is
hierarchical: the four groups of sizes 8, 8, 8, 1 get one merge call each,
followed by one final direct combination of the four intermediates. -/
theorem ai_combine_dispatch_by_cleaned_count :
    (∀ (oracle : Oracle) (k target : Nat),
      aiCombine oracle k [] target = (some "No summaries to combine.", k, [])) ∧
    (∀ (oracle : Oracle) (k target : Nat) (summaries : List String) (s : String),
      validSummariesOf summaries = [s] →
      aiCombine oracle k summaries target = (some s, k, [])) ∧
    (∀ (oracle : Oracle) (k target : Nat) (summaries : List String),
      2 ≤ (validSummariesOf summaries).length →
      ((validSummariesOf summaries).filterMap cleanOneSummary).length ≤ 20 →
      aiCombine oracle k summaries target =
        directCombine oracle k
          ((validSummariesOf summaries).filterMap cleanOneSummary) target) ∧
    (∀ (oracle : Oracle) (k target : Nat),
      (∀ n, ∃ s, oracle n = .returns (some s) ∧ pyStrip s ≠ "") →
      ∃ ints : List String, ints.length = 4 ∧
        (aiCombine oracle k summaries25 target).1 =
          (directCombine oracle (k + 4) ints target).1 ∧
        (aiCombine oracle k summaries25 target).2.2 =
          (groupsOf8 summaries25).map (fun g => CallEvent.merge g (mergePrompt g)) ++
            [.direct ints target (directPrompt ints target)] ∧
        (groupsOf8 summaries25).map List.length = [8, 8, 8, 1]) := by
  have hempty : ∀ summaries : List String,
      validSummariesOf summaries ≠ [] → summaries.isEmpty = false := by
    intro summaries h
    cases hs : summaries with
    | nil => rw [hs] at h; exact absurd rfl h
    | cons a l => rfl
  refine ⟨?_, ?_, ?_, ?_⟩
  · intro oracle k target
    simp [aiCombine]
  · intro oracle k target summaries s hv
    have h1 : summaries.isEmpty = false := hempty summaries (by rw [hv]; simp)
    simp [aiCombine, h1, hv]
  · intro oracle k target summaries hval hcl
    have h1 : summaries.isEmpty = false := by
      apply hempty
      intro h
      rw [h] at hval
      simp at hval
    have h2 : (validSummariesOf summaries).isEmpty = false := by
      cases hs : validSummariesOf summaries with
      | nil => rw [hs] at hval; simp at hval
      | cons a l => rfl
    have h3 : ¬((validSummariesOf summaries).length = 1) := by omega
    have h4 : ¬(20 < ((validSummariesOf summaries).filterMap cleanOneSummary).length) := by
      omega
    simp [aiCombine, h1, h2, h3, h4]
  · intro oracle k target hGood
    have hvalid : validSummariesOf summaries25 = summaries25 := by decide
    have hclean : summaries25.filterMap cleanOneSummary = summaries25 := by decide
    have hglen : (groupsOf8 summaries25).length = 4 := by decide
    have hstep : aiCombine oracle k summaries25 target =
        hierarchicalCombine oracle k summaries25 target := by
      have h1 : summaries25.isEmpty = false := by decide
      have h3 : ¬(summaries25.length = 1) := by decide
      have h4 : 20 < summaries25.length := by decide
      simp [aiCombine, h1, hvalid, hclean, h3, h4]
    have hints : (hierStage1 oracle k (groupsOf8 summaries25)).1.length = 4 := by
      rw [hierStage1_length_of_good oracle hGood, hglen]
    refine ⟨(hierStage1 oracle k (groupsOf8 summaries25)).1, hints, ?_, ?_, by decide⟩
    · rw [hstep, hierarchicalCombine]
      rw [if_neg (by omega), if_pos (by omega)]
      simp only [hierStage1, hglen]
    · rw [hstep, hierarchicalCombine]
      rw [if_neg (by omega), if_pos (by omega)]
      have hev := (directCombine_trace oracle
        ((hierStage1 oracle k (groupsOf8 summaries25)).2.1)
        ((hierStage1 oracle k (groupsOf8 summaries25)).1) target).2
      simp only [hev]
      have h221 : (hierStage1 oracle k (groupsOf8 summaries25)).2.1 = k + 4 := by
        simp [hierStage1, hglen]
      have h222 : (hierStage1 oracle k (groupsOf8 summaries25)).2.2 =
          (groupsOf8 summaries25).map (fun g => CallEvent.merge g (mergePrompt g)) := rfl
      rw [h222]

/-- Witness for the dispatch theorem, discharging each hypothesis at
concrete inputs: the empty list, a single-valid-summary list, a two-summary
direct combination, and the 25-summary hierarchical run under the
always-good oracle. -/
theorem ai_combine_dispatch_by_cleaned_count_witness :
    aiCombine oracleAllGood 0 [] 300 = (some "No summaries to combine.", 0, []) ∧
    aiCombine oracleAllGood 0 ["", "only one summary here"] 300 =
      (some "only one summary here", 0, []) ∧
    aiCombine oracleAllGood 0 [summaryFix 0, summaryFix 1] 300 =
      directCombine oracleAllGood 0
        ((validSummariesOf [summaryFix 0, summaryFix 1]).filterMap cleanOneSummary) 300 ∧
    (∃ ints : List String, ints.length = 4 ∧
      (aiCombine oracleAllGood 0 summaries25 300).1 =
        (directCombine oracleAllGood (0 + 4) ints 300).1 ∧
      (aiCombine oracleAllGood 0 summaries25 300).2.2 =
        (groupsOf8 summaries25).map (fun g => CallEvent.merge g (mergePrompt g)) ++
          [.direct ints 300 (directPrompt ints 300)] ∧
      (groupsOf8 summaries25).map List.length = [8, 8, 8, 1]) := by
  refine ⟨ai_combine_dispatch_by_cleaned_count.1 oracleAllGood 0 300,
    ai_combine_dispatch_by_cleaned_count.2.1 oracleAllGood 0 300
      ["", "only one summary here"] "only one summary here" (by decide),
    ai_combine_dispatch_by_cleaned_count.2.2.1 oracleAllGood 0 300
      [summaryFix 0, summaryFix 1] (by decide) (by decide),
    ai_combine_dispatch_by_cleaned_count.2.2.2 oracleAllGood 0 300 ?_⟩
  intro n
  exact ⟨"This is a reasonably long combined summary produced for testing purposes only.",
    rfl, by decide⟩

/-- Non-whitespace characters survive `str.strip`. -/
theorem mem_pyStripL_of_not_space {c : Char} {l : List Char}
    (hc : c ∈ l) (hns : pyIsSpace c = false) : c ∈ pyStripL l := by
  have step : ∀ m : List Char, c ∈ m → c ∈ m.dropWhile pyIsSpace := by
    intro m hm
    rcases (List.mem_append.mp
      ((List.takeWhile_append_dropWhile (p := pyIsSpace) (l := m)) ▸ hm)) with h | h
    · have := List.mem_takeWhile_imp h
      rw [hns] at this
      cases this
    · exact h
  unfold pyStripL
  rw [List.mem_reverse]
  apply step
  rw [List.mem_reverse]
  exact step _ hc

/-- A summary with a non-blank strip contributes its stripped form to the
valid-summary list. -/
theorem pyStrip_mem_valid {s : String} {summaries : List String}
    (hs : s ∈ summaries) (hne : pyStrip s ≠ "") :
    pyStrip s ∈ validSummariesOf summaries := by
  apply List.mem_filterMap.mpr
  refine ⟨s, hs, ?_⟩
  have hsne : s ≠ "" := by
    intro h
    apply hne
    rw [h]
    rfl
  simp [hsne, hne]

/-- Characters of any part survive `joinWith`. -/
theorem mem_joinWith {c : Char} {sep : List Char} :
    ∀ {parts : List (List Char)} {w : List Char},
      w ∈ parts → c ∈ w → c ∈ joinWith sep parts := by
  intro parts
  induction parts with
  | nil => intro w hw; cases hw
  | cons p ps ih =>
    intro w hw hc
    cases ps with
    | nil =>
      rcases hw with _ | ⟨_, h⟩
      · simpa [joinWith] using hc
      · cases h
    | cons p' ps' =>
      rcases List.mem_cons.mp hw with h | h
      · rw [joinWith]
        simp only [List.mem_append]
        exact Or.inl (Or.inl (h ▸ hc))
      · rw [joinWith]
        simp only [List.mem_append]
        exact Or.inr (ih h hc)

/-- `splitOnChar` never produces the empty piece list. -/
theorem splitOnChar_ne_nil (sep : Char) : ∀ l : List Char, splitOnChar sep l ≠ [] := by
  intro l
  induction l with
  | nil => simp [splitOnChar]
  | cons x xs ih =>
    by_cases hx : x = sep
    · simp [splitOnChar, hx]
    · simp only [splitOnChar, hx, if_neg, Bool.false_eq_true, not_false_eq_true]
      rcases h : splitOnChar sep xs with _ | ⟨p, ps⟩
      · exact absurd h ih
      · simp

/-- A non-separator character lands in some piece of `splitOnChar`. -/
theorem mem_splitOnChar {c sep : Char} (hcs : c ≠ sep) :
    ∀ l : List Char, c ∈ l → ∃ p ∈ splitOnChar sep l, c ∈ p := by
  intro l
  induction l with
  | nil => intro h; cases h
  | cons x xs ih =>
    intro hmem
    by_cases hx : x = sep
    · rcases List.mem_cons.mp hmem with h | h
      · exact absurd (h.trans hx) hcs
      · rcases ih h with ⟨p, hp, hcp⟩
        exact ⟨p, by simp [splitOnChar, hx, hp], hcp⟩
    · simp only [splitOnChar, hx, if_neg, Bool.false_eq_true, not_false_eq_true]
      rcases h : splitOnChar sep xs with _ | ⟨p0, ps0⟩
      · exact absurd h (splitOnChar_ne_nil sep xs)
      · rcases List.mem_cons.mp hmem with hcx | hcxs
        · exact ⟨x :: p0, by simp, by simp [hcx]⟩
        · rcases ih hcxs with ⟨q, hq, hcq⟩
          rw [h] at hq
          rcases List.mem_cons.mp hq with rfl | hq'
          · exact ⟨x :: q, by simp, List.mem_cons_of_mem _ hcq⟩
          · exact ⟨q, by simp [hq'], hcq⟩

/-- `keepNonSub` only ever extends its accumulator. -/
theorem keepNonSub_extends :
    ∀ (l acc : List String), ∃ suffix, keepNonSub acc l = acc ++ suffix := by
  intro l
  induction l with
  | nil => intro acc; exact ⟨[], by simp [keepNonSub]⟩
  | cons s rest ih =>
    intro acc
    rw [keepNonSub]
    split
    · rcases ih (acc ++ [s]) with ⟨suf, hsuf⟩
      exact ⟨[s] ++ suf, by rw [hsuf, List.append_assoc]⟩
    · exact ih acc

/-- The fallback concatenation is non-empty whenever some valid summary
contains a character that is neither whitespace nor a period. -/
theorem dedupJoin_ne_empty {valid : List String}
    (h : ∃ v ∈ valid, ∃ c ∈ v.data, pyIsSpace c = false ∧ c ≠ '.') :
    dedupJoin valid ≠ "" := by
  rcases h with ⟨v, hv, c, hcv, hcs, hcd⟩
  have hcomb : c ∈ joinWith [' '] (valid.map String.data) :=
    mem_joinWith (List.mem_map.mpr ⟨v, hv, rfl⟩) hcv
  rcases mem_splitOnChar hcd _ hcomb with ⟨p, hp, hcp⟩
  have hps : c ∈ pyStripL p := mem_pyStripL_of_not_space hcp hcs
  have hpne : (pyStripL p).isEmpty = false := by
    cases hq : pyStripL p with
    | nil => rw [hq] at hps; cases hps
    | cons a l => rfl
  set sentences := ((splitOnChar '.' (joinWith [' '] (valid.map String.data))).filterMap
    (fun s => let st := pyStripL s; if st.isEmpty then none else some (String.mk st)))
    with hsent
  have hmem : String.mk (pyStripL p) ∈ sentences := by
    rw [hsent]
    apply List.mem_filterMap.mpr
    exact ⟨p, hp, by simp [hpne]⟩
  have hall : ∀ x ∈ sentences, x ≠ "" := by
    intro x hx
    rcases List.mem_filterMap.mp hx with ⟨q, _, hq⟩
    simp only at hq
    split at hq
    · cases hq
    · rename_i hqe
      rw [← Option.some_inj.mp hq]
      intro hbad
      apply hqe
      have : (pyStripL q) = [] := by
        have := congrArg String.data hbad
        simpa using this
      rw [this]
      rfl
  have huniq : keepNonSub [] sentences ≠ [] := by
    cases hs : sentences with
    | nil => rw [hs] at hmem; cases hmem
    | cons s0 rest =>
      rw [keepNonSub]
      have hs0 : s0 ≠ "" := hall s0 (by rw [hs]; exact List.mem_cons_self _ _)
      rw [if_pos (by simpa using hs0)]
      simp only [List.nil_append]
      rcases keepNonSub_extends rest [s0] with ⟨suf, hsuf⟩
      rw [hsuf]
      simp
  intro hbad
  simp only [dedupJoin] at hbad
  rw [← hsent] at hbad
  rw [if_neg (by simpa using huniq)] at hbad
  have hdata := congrArg String.data hbad
  rw [String.data_append] at hdata
  have hdata' : (". ".intercalate (keepNonSub [] sentences)).data ++ ".".data = [] := by
    simp only [String.data_append] at hdata
    exact hdata
  rcases List.append_eq_nil.mp hdata' with ⟨_, h2⟩
  exact absurd h2 (by decide)

/-- C4 (amended): with at least one summary containing a character that is
neither whitespace nor a period, `hybrid_combine` returns a non-empty
string on every path — the accepted AI result, the single-valid-summary
shortcut, and the de-duplicating concatenation fallback.  (On summaries
made only of periods and whitespace the fallback returns the empty string,
as the counterexample shows.) -/
theorem hybrid_combine_nonempty_on_substantive_input :
    ∀ (oracle : Oracle) (k target : Nat) (useAi : Bool) (summaries : List String),
      (∃ s ∈ summaries, ∃ c ∈ s.data, pyIsSpace c = false ∧ c ≠ '.') →
      (hybridCombine oracle k summaries useAi target).1 ≠ "" := by
  intro oracle k target useAi summaries h
  rcases h with ⟨s, hs, c, hcv, hcs, hcd⟩
  have hstripmem : c ∈ pyStripL s.data := mem_pyStripL_of_not_space hcv hcs
  have hstrip : pyStrip s ≠ "" := by
    intro hbad
    have hdata : pyStripL s.data = [] := congrArg String.data hbad
    rw [hdata] at hstripmem
    cases hstripmem
  have hvmem : pyStrip s ∈ validSummariesOf summaries := pyStrip_mem_valid hs hstrip
  have hvchar : c ∈ (pyStrip s).data := hstripmem
  have hsub : ∃ v ∈ validSummariesOf summaries,
      ∃ c ∈ v.data, pyIsSpace c = false ∧ c ≠ '.' :=
    ⟨pyStrip s, hvmem, c, hvchar, hcs, hcd⟩
  have hsumne : summaries.isEmpty = false := by
    cases hx : summaries with
    | nil => rw [hx] at hs; cases hs
    | cons a l => rfl
  have hvne : (validSummariesOf summaries).isEmpty = false := by
    cases hx : validSummariesOf summaries with
    | nil => rw [hx] at hvmem; cases hvmem
    | cons a l => rfl
  have hsingle : (validSummariesOf summaries).length = 1 →
      (validSummariesOf summaries).headD "" ≠ "" := by
    intro hlen
    cases hx : validSummariesOf summaries with
    | nil => rw [hx] at hlen; simp at hlen
    | cons a l =>
      rw [hx] at hvmem hlen
      simp only [List.length_cons] at hlen
      have hl : l = [] := List.length_eq_zero.mp (by omega)
      rw [hl] at hvmem
      rcases List.mem_singleton.mp hvmem with rfl
      simpa using hstrip
  simp only [hybridCombine, hsumne, Bool.false_eq_true, if_neg, not_false_eq_true,
    hvne]
  split
  · split
    · split
      · rename_i hcond
        exact hcond.1
      · split
        · rename_i hlen
          exact hsingle hlen
        · exact dedupJoin_ne_empty hsub
    · split
      · rename_i hlen
        exact hsingle hlen
      · exact dedupJoin_ne_empty hsub
  · split
    · rename_i hlen
      exact hsingle hlen
    · exact dedupJoin_ne_empty hsub

/-- Witness for the non-emptiness theorem: a failing LLM on two plain
sentences still yields a non-empty combination. -/
theorem hybrid_combine_nonempty_on_substantive_input_witness :
    (∃ s ∈ ["First point here.", "Second remark there."],
      ∃ c ∈ s.data, pyIsSpace c = false ∧ c ≠ '.') ∧
    (hybridCombine oracleNoResponse 0
      ["First point here.", "Second remark there."] true 300).1 ≠ "" := by
  refine ⟨by decide, ?_⟩
  exact hybrid_combine_nonempty_on_substantive_input oracleNoResponse 0 300 true
    ["First point here.", "Second remark there."] (by decide)

/-- Every character the whitespace collapse emits is either a plain space
or a non-whitespace input character. -/
theorem mem_collapseWsAux {c : Char} :
    ∀ (l : List Char) (pending : Bool), c ∈ collapseWsAux pending l →
      c = ' ' ∨ pyIsSpace c = false := by
  intro l
  induction l with
  | nil =>
    intro pending h
    cases pending with
    | true => simp [collapseWsAux] at h; exact Or.inl h
    | false => simp [collapseWsAux] at h
  | cons x xs ih =>
    intro pending h
    by_cases hx : pyIsSpace x = true
    · rw [collapseWsAux, if_pos hx] at h
      exact ih true h
    · have hx' : pyIsSpace x = false := by simpa using hx
      rw [collapseWsAux, if_neg (by simp [hx'])] at h
      cases pending with
      | true =>
        simp only [if_true] at h
        rcases List.mem_cons.mp h with rfl | h
        · exact Or.inl rfl
        · rcases List.mem_cons.mp h with rfl | h
          · exact Or.inr hx'
          · exact ih false h
      | false =>
        simp only [Bool.false_eq_true, if_neg, not_false_eq_true] at h
        rcases List.mem_cons.mp h with rfl | h
        · exact Or.inr hx'
        · exact ih false h

/-- A run collapse is the identity on text that avoids its character. -/
theorem collapseRunsAux_id_of_not_mem {β : Char} {thr : Nat} {repl : List Char} :
    ∀ l : List Char, (∀ c ∈ l, c ≠ β) → collapseRunsAux β thr repl 0 l = l := by
  intro l
  induction l with
  | nil => simp [collapseRunsAux, emitRun]
  | cons x xs ih =>
    intro h
    have hx : ¬(x = β) := h x (List.mem_cons_self _ _)
    rw [collapseRunsAux, if_neg hx, ih (fun c hc => h c (List.mem_cons_of_mem _ hc))]
    simp [emitRun]

/-- Splitting on a character absent from the text yields one piece. -/
theorem splitOnChar_eq_single {sep : Char} :
    ∀ m : List Char, (∀ c ∈ m, c ≠ sep) → splitOnChar sep m = [m] := by
  intro m
  induction m with
  | nil => simp [splitOnChar]
  | cons x xs ih =>
    intro h
    have hx : ¬(x = sep) := h x (List.mem_cons_self _ _)
    rw [splitOnChar, if_neg hx, ih (fun c hc => h c (List.mem_cons_of_mem _ hc))]

/-- `normalize_whitespace` reduces to stripping the whitespace collapse:
after `\s+ → ' '` no newline remains, so the newline collapse, the line
split, and the blank-line de-duplication all act on the single line. -/
theorem normalizeWhitespaceL_eq (l : List Char) :
    normalizeWhitespaceL l = pyStripL (collapseWs l) := by
  have hno : ∀ c ∈ collapseWs l, c ≠ '\n' := by
    intro c hc
    rcases mem_collapseWsAux l false hc with rfl | h
    · decide
    · intro hbad
      rw [hbad] at h
      simp [pyIsSpace] at h
  unfold normalizeWhitespaceL
  rw [show collapseRuns '\n' 3 ['\n', '\n'] (collapseWs l) = collapseWs l from
    collapseRunsAux_id_of_not_mem _ hno]
  rw [splitOnChar_eq_single _ hno]
  simp only [List.map_cons, List.map_nil]
  cases hs : pyStripL (collapseWs l) with
  | nil => simp [dedupBlankLines, joinWith]
  | cons a t => simp [dedupBlankLines, joinWith]

/-- The whitespace collapse always produces whitespace-normal text. -/
theorem spaceNormal_collapseWsAux :
    ∀ (l : List Char) (pending : Bool), SpaceNormal (collapseWsAux pending l) := by
  intro l
  induction l with
  | nil =>
    intro pending
    cases pending with
    | true =>
      constructor
      · intro c hc _
        simp [collapseWsAux] at hc
        exact hc
      · simp [collapseWsAux]
    | false =>
      constructor
      · intro c hc
        simp [collapseWsAux] at hc
      · simp [collapseWsAux]
  | cons x xs ih =>
    intro pending
    by_cases hx : pyIsSpace x = true
    · rw [collapseWsAux, if_pos hx]
      exact ih true
    · have hx' : pyIsSpace x = false := by simpa using hx
      have hmem : ∀ c ∈ x :: collapseWsAux false xs, pyIsSpace c = true → c = ' ' := by
        intro c hc hcs
        rcases List.mem_cons.mp hc with rfl | hc
        · rw [hx'] at hcs; cases hcs
        · rcases mem_collapseWsAux xs false hc with rfl | h
          · rfl
          · rw [h] at hcs; cases hcs
      have hchain : List.Chain'
          (fun a b => ¬(pyIsSpace a = true ∧ pyIsSpace b = true))
          (x :: collapseWsAux false xs) := by
        rw [List.chain'_cons']
        exact ⟨fun y _ => by simp [hx'], (ih false).2⟩
      rw [collapseWsAux, if_neg (by simp [hx'])]
      cases pending with
      | true =>
        simp only [if_true]
        refine ⟨?_, ?_⟩
        · intro c hc hcs
          rcases List.mem_cons.mp hc with rfl | hc
          · rfl
          · exact hmem c hc hcs
        · rw [List.chain'_cons']
          exact ⟨fun y hy => by
            rw [List.head?_cons, Option.mem_some_iff] at hy
            simp [← hy, hx'], hchain⟩
      | false =>
        simp only [Bool.false_eq_true, if_neg, not_false_eq_true]
        exact ⟨hmem, hchain⟩

/-- On whitespace-normal text the collapse is the identity (and with an
open pending run, it prepends exactly one space when the head is not
whitespace). -/
theorem collapseWsAux_eq_self :
    ∀ m : List Char, SpaceNormal m →
      (collapseWsAux false m = m ∧
        ((∀ hd ∈ m.head?, pyIsSpace hd = false) → collapseWsAux true m = ' ' :: m)) := by
  intro m
  induction m with
  | nil => exact fun _ => ⟨rfl, fun _ => rfl⟩
  | cons x xs ih =>
    intro hsn
    have hsx : SpaceNormal xs := ⟨fun c hc => hsn.1 c (List.mem_cons_of_mem _ hc),
      hsn.2.tail⟩
    constructor
    · by_cases hx : pyIsSpace x = true
      · have hxsp : x = ' ' := hsn.1 x (List.mem_cons_self _ _) hx
        rw [collapseWsAux, if_pos hx]
        have hhead : ∀ hd ∈ xs.head?, pyIsSpace hd = false := by
          intro hd hhd
          have := (List.chain'_cons'.mp hsn.2).1 hd hhd
          rcases Bool.eq_false_or_eq_true (pyIsSpace hd) with h | h
          · exact absurd ⟨hx, h⟩ this
          · exact h
        rw [(ih hsx).2 hhead, hxsp]
      · have hx' : pyIsSpace x = false := by simpa using hx
        rw [collapseWsAux, if_neg (by simp [hx'])]
        simp only [Bool.false_eq_true, if_neg, not_false_eq_true]
        rw [(ih hsx).1]
    · intro hhd
      have hx' : pyIsSpace x = false := hhd x (by simp)
      rw [collapseWsAux, if_neg (by simp [hx'])]
      simp only [if_true]
      rw [(ih hsx).1]

/-- `str.strip` keeps a contiguous infix of its input. -/
theorem pyStripL_contiguous (l : List Char) : pyStripL l <:+: l := by
  unfold pyStripL
  have h1 : l.dropWhile pyIsSpace <:+ l := List.dropWhile_suffix _
  have h2 : (l.dropWhile pyIsSpace).reverse.dropWhile pyIsSpace <:+
      (l.dropWhile pyIsSpace).reverse := List.dropWhile_suffix _
  have h3 : ((l.dropWhile pyIsSpace).reverse.dropWhile pyIsSpace).reverse <+:
      l.dropWhile pyIsSpace := by
    rw [← List.reverse_reverse (l.dropWhile pyIsSpace)]
    exact List.reverse_prefix.mpr (by simpa using h2)
  exact (h3.isInfix).trans h1.isInfix

/-- Whitespace-normality passes to any contiguous infix. -/
theorem spaceNormal_contiguous {m l : List Char} (h : SpaceNormal m) (hinf : l <:+: m) :
    SpaceNormal l :=
  ⟨fun c hc => h.1 c (hinf.sublist.subset hc), List.Chain'.infix h.2 hinf⟩

/-- The head of a `dropWhile` result fails the predicate. -/
theorem dropWhile_head_false {p : Char → Bool} :
    ∀ {y : List Char} {c : Char} {t : List Char},
      y.dropWhile p = c :: t → p c = false := by
  intro y
  induction y with
  | nil => intro c t h; cases h
  | cons a ys ih =>
    intro c t h
    by_cases ha : p a = true
    · rw [List.dropWhile_cons, if_pos ha] at h
      exact ih h
    · have ha' : p a = false := by simpa using ha
      rw [List.dropWhile_cons, if_neg (by simp [ha'])] at h
      cases h
      exact ha'

/-- Dropping a prefix by a predicate twice is the same as dropping once. -/
theorem dropWhile_dropWhile_self {p : Char → Bool} (x : List Char) :
    (x.dropWhile p).dropWhile p = x.dropWhile p := by
  cases h : x.dropWhile p with
  | nil => simp
  | cons c t =>
    rw [List.dropWhile_cons, if_neg (by simp [dropWhile_head_false h])]

/-- `str.strip` is idempotent. -/
theorem pyStripL_idem (l : List Char) : pyStripL (pyStripL l) = pyStripL l := by
  have hrev : (pyStripL l).reverse = (l.dropWhile pyIsSpace).reverse.dropWhile pyIsSpace := by
    unfold pyStripL
    rw [List.reverse_reverse]
  have h1 : (pyStripL l).dropWhile pyIsSpace = pyStripL l := by
    cases hS : pyStripL l with
    | nil => rfl
    | cons c t =>
      have hpre : pyStripL l <+: l.dropWhile pyIsSpace := by
        unfold pyStripL
        rw [← List.reverse_reverse (l.dropWhile pyIsSpace)]
        exact List.reverse_prefix.mpr (by simpa using
          (List.dropWhile_suffix (l := (l.dropWhile pyIsSpace).reverse) pyIsSpace))
      rcases hpre with ⟨t2, ht2⟩
      rw [hS] at ht2
      have hc : pyIsSpace c = false := dropWhile_head_false (y := l) ht2.symm
      rw [List.dropWhile_cons, if_neg (by simp [hc])]
  show ((((pyStripL l).dropWhile pyIsSpace).reverse.dropWhile pyIsSpace).reverse) = pyStripL l
  rw [h1, hrev, dropWhile_dropWhile_self]
  rfl

/-- `normalize_whitespace` is idempotent. -/
theorem normalizeWhitespaceL_idem (l : List Char) :
    normalizeWhitespaceL (normalizeWhitespaceL l) = normalizeWhitespaceL l := by
  rw [normalizeWhitespaceL_eq, normalizeWhitespaceL_eq]
  have h1 : SpaceNormal (collapseWs l) := spaceNormal_collapseWsAux l false
  have h2 : SpaceNormal (pyStripL (collapseWs l)) :=
    spaceNormal_contiguous h1 (pyStripL_contiguous _)
  rw [show collapseWs (pyStripL (collapseWs l)) = pyStripL (collapseWs l) from
    (collapseWsAux_eq_self _ h2).1]
  exact pyStripL_idem _

/-- Emitting a pending run agrees with collapsing the run pair. -/
theorem emitRun_eq_collapseRun (β : Char) (thr r k : Nat) (hk : 1 ≤ k) :
    emitRun β thr (List.replicate r β) k =
      List.replicate (collapseRun β thr r (β, k)).2 (collapseRun β thr r (β, k)).1 := by
  have hk0 : ¬(k = 0) := by omega
  by_cases h : thr ≤ k
  · simp [emitRun, collapseRun, hk0, h]
  · simp [emitRun, collapseRun, hk0, h]

/-- A run pair keeps its character under collapsing. -/
theorem collapseRun_fst (β : Char) (thr r : Nat) (p : Char × Nat) :
    (collapseRun β thr r p).1 = p.1 := by
  unfold collapseRun
  split_ifs with h
  · exact h.1.symm
  · rfl

/-- Prepending a run pair to a run decomposition. -/
theorem fromRuns_cons (p : Char × Nat) (rs : List (Char × Nat)) :
    fromRuns (p :: rs) = List.replicate p.2 p.1 ++ fromRuns rs := by
  simp [fromRuns]

/-- The run-collapse scanner agrees with collapsing each run of the run
decomposition, both with an open `β` run of length `k` and after a closed
run of some other character. -/
theorem collapseRunsAux_toRuns (β : Char) (thr r : Nat) :
    ∀ l : List Char,
      (∀ k, 1 ≤ k → collapseRunsAux β thr (List.replicate r β) k l =
        fromRuns ((toRunsAux β k l).map (collapseRun β thr r))) ∧
      (∀ d k, d ≠ β → 1 ≤ k →
        List.replicate k d ++ collapseRunsAux β thr (List.replicate r β) 0 l =
        fromRuns ((toRunsAux d k l).map (collapseRun β thr r))) := by
  intro l
  induction l with
  | nil =>
    constructor
    · intro k hk
      show emitRun β thr (List.replicate r β) k = _
      rw [emitRun_eq_collapseRun β thr r k hk]
      simp [toRunsAux, fromRuns]
    · intro d k hd hk
      show List.replicate k d ++ emitRun β thr (List.replicate r β) 0 = _
      simp [emitRun, toRunsAux, fromRuns, collapseRun, hd]
  | cons x xs ih =>
    constructor
    · intro k hk
      by_cases hx : x = β
      · subst hx
        rw [collapseRunsAux, if_pos rfl, toRunsAux, if_pos rfl]
        exact ih.1 (k + 1) (by omega)
      · rw [collapseRunsAux, if_neg hx, toRunsAux, if_neg hx]
        rw [List.map_cons, fromRuns_cons, ← ih.2 x 1 hx (by omega)]
        rw [emitRun_eq_collapseRun β thr r k hk]
        simp
    · intro d k hd hk
      by_cases hxd : x = d
      · subst hxd
        have hxβ : ¬(x = β) := hd
        rw [collapseRunsAux, if_neg hxβ, toRunsAux, if_pos rfl]
        rw [← ih.2 x (k + 1) hd (by omega)]
        rw [show emitRun β thr (List.replicate r β) 0 = [] from rfl, List.nil_append]
        rw [List.append_cons, ← List.replicate_succ']
      · by_cases hxβ : x = β
        · subst hxβ
          rw [collapseRunsAux, if_pos rfl, toRunsAux, if_neg hxd]
          rw [List.map_cons, fromRuns_cons, ← ih.1 1 (by omega)]
          simp [collapseRun, hd]
        · rw [collapseRunsAux, if_neg hxβ, toRunsAux, if_neg hxd]
          rw [List.map_cons, fromRuns_cons, ← ih.2 x 1 hxβ (by omega)]
          simp [emitRun, collapseRun, hd]

/-- `re.sub(β{thr,}, β*r, ...)` collapses each run of the run
decomposition independently. -/
theorem collapseRuns_eq_mapRuns (β : Char) (thr r : Nat) (l : List Char) :
    collapseRuns β thr (List.replicate r β) l =
      fromRuns ((toRuns l).map (collapseRun β thr r)) := by
  cases l with
  | nil => rfl
  | cons c cs =>
    by_cases hc : c = β
    · show collapseRunsAux β thr (List.replicate r β) 0 (c :: cs) = _
      rw [collapseRunsAux, if_pos hc, hc]
      exact (collapseRunsAux_toRuns β thr r cs).1 1 (by omega)
    · show collapseRunsAux β thr (List.replicate r β) 0 (c :: cs) = _
      rw [collapseRunsAux, if_neg hc]
      have h := (collapseRunsAux_toRuns β thr r cs).2 c 1 hc (by omega)
      simp only [List.replicate_one, List.singleton_append] at h
      rw [show emitRun β thr (List.replicate r β) 0 = [] from rfl, List.nil_append]
      exact h

/-- Every run the decomposition opens starts with its opening character and
at least its opening count. -/
theorem toRunsAux_head (c : Char) :
    ∀ (l : List Char) (k : Nat), ∃ m t, toRunsAux c k l = (c, m) :: t ∧ k ≤ m := by
  intro l
  induction l with
  | nil => intro k; exact ⟨k, [], rfl, le_refl k⟩
  | cons d ds ih =>
    intro k
    by_cases hd : d = c
    · subst hd
      rcases ih (k + 1) with ⟨m, t, hmt, hkm⟩
      exact ⟨m, t, by rw [toRunsAux, if_pos rfl]; exact hmt, by omega⟩
    · exact ⟨k, toRunsAux d 1 ds, by rw [toRunsAux, if_neg hd], le_refl k⟩

/-- The run decomposition scanner yields a valid run list. -/
theorem validRuns_toRunsAux :
    ∀ (l : List Char) (c : Char) (k : Nat), 1 ≤ k → ValidRuns (toRunsAux c k l) := by
  intro l
  induction l with
  | nil =>
    intro c k hk
    constructor
    · intro p hp
      simp [toRunsAux] at hp
      rw [hp]
      exact hk
    · simp [toRunsAux]
  | cons d ds ih =>
    intro c k hk
    by_cases hd : d = c
    · subst hd
      rw [toRunsAux, if_pos rfl]
      exact ih d (k + 1) (by omega)
    · rw [toRunsAux, if_neg hd]
      rcases toRunsAux_head d ds 1 with ⟨m, t, hmt, _⟩
      have hvalid := ih d 1 (by omega)
      constructor
      · intro p hp
        rcases List.mem_cons.mp hp with rfl | hp
        · exact hk
        · exact hvalid.1 p hp
      · rw [List.chain'_cons']
        refine ⟨?_, hvalid.2⟩
        intro q hq
        rw [hmt, List.head?_cons, Option.mem_some_iff] at hq
        subst hq
        intro hbad
        exact hd (by simpa using hbad.symm)

/-- The run decomposition of any text is valid. -/
theorem validRuns_toRuns (l : List Char) : ValidRuns (toRuns l) := by
  cases l with
  | nil =>
    constructor
    · intro p hp
      simp [toRuns] at hp
    · simp [toRuns]
  | cons c cs => exact validRuns_toRunsAux cs c 1 (by omega)

/-- A replicate of the open character extends the open run. -/
theorem toRunsAux_replicate_append (c : Char) :
    ∀ (j k : Nat) (l : List Char),
      toRunsAux c k (List.replicate j c ++ l) = toRunsAux c (k + j) l := by
  intro j
  induction j with
  | zero => intro k l; simp
  | succ j ih =>
    intro k l
    rw [List.replicate_succ, List.cons_append, toRunsAux, if_pos rfl, ih]
    have h : k + 1 + j = k + (j + 1) := by omega
    rw [h]

/-- An open run closes at a differing head character. -/
theorem toRunsAux_of_head_ne (c : Char) (m : Nat) :
    ∀ l : List Char, (∀ hd ∈ l.head?, hd ≠ c) → toRunsAux c m l = (c, m) :: toRuns l := by
  intro l h
  cases l with
  | nil => rfl
  | cons d ds =>
    have hd : ¬(d = c) := h d (by simp)
    rw [toRunsAux, if_neg hd]
    rfl

/-- Decomposing a rebuilt valid run list recovers it. -/
theorem toRuns_fromRuns : ∀ rs : List (Char × Nat), ValidRuns rs → toRuns (fromRuns rs) = rs := by
  intro rs
  induction rs with
  | nil => intro _; rfl
  | cons p rest ih =>
    intro hv
    obtain ⟨c, m⟩ := p
    have hm : 1 ≤ m := hv.1 (c, m) (List.mem_cons_self _ _)
    have hrest : ValidRuns rest := ⟨fun q hq => hv.1 q (List.mem_cons_of_mem _ hq), hv.2.tail⟩
    have hhead : ∀ hd ∈ (fromRuns rest).head?, hd ≠ c := by
      intro hd hhd
      cases rest with
      | nil => simp [fromRuns] at hhd
      | cons q rest2 =>
        have hq1 : 1 ≤ q.2 := hrest.1 q (List.mem_cons_self _ _)
        have hne : (c, m).1 ≠ q.1 :=
          (List.chain'_cons'.mp hv.2).1 q (by rw [List.head?_cons]; rfl)
        obtain ⟨n, hn⟩ : ∃ n, q.2 = n + 1 := ⟨q.2 - 1, by omega⟩
        rw [fromRuns_cons, hn, List.replicate_succ, List.cons_append,
          List.head?_cons, Option.mem_some_iff] at hhd
        subst hhd
        exact fun hbad => hne (by simpa using hbad.symm)
    obtain ⟨m2, rfl⟩ : ∃ m2, m = m2 + 1 := ⟨m - 1, by omega⟩
    rw [fromRuns_cons]
    simp only []
    rw [List.replicate_succ, List.cons_append]
    show toRunsAux c 1 (List.replicate m2 c ++ fromRuns rest) = _
    rw [toRunsAux_replicate_append c m2 1 (fromRuns rest)]
    have h1m : 1 + m2 = m2 + 1 := by omega
    rw [h1m, toRunsAux_of_head_ne c (m2 + 1) (fromRuns rest) hhead, ih hrest]

/-- Collapsing runs preserves run-list validity when the replacement run is
non-empty. -/
theorem validRuns_map_collapseRun (β : Char) (thr r : Nat) (hr : 1 ≤ r)
    {rs : List (Char × Nat)} (h : ValidRuns rs) :
    ValidRuns (rs.map (collapseRun β thr r)) := by
  constructor
  · intro p hp
    rcases List.mem_map.mp hp with ⟨q, hq, rfl⟩
    unfold collapseRun
    split_ifs with hcond
    · exact hr
    · exact h.1 q hq
  · rw [List.chain'_map]
    refine h.2.imp ?_
    intro a b hab
    rw [collapseRun_fst, collapseRun_fst]
    exact hab

/-- `remove_excessive_punctuation` collapses each punctuation run of the
run decomposition pointwise. -/
theorem removeExcessivePunctuationL_eq_mapRuns (l : List Char) :
    removeExcessivePunctuationL l = fromRuns ((toRuns l).map
      (fun p => collapseRun '?' 2 1 (collapseRun '!' 2 1 (collapseRun '.' 3 3 p)))) := by
  unfold removeExcessivePunctuationL
  have hdot : ['.', '.', '.'] = List.replicate 3 '.' := rfl
  have hexc : ['!'] = List.replicate 1 '!' := rfl
  have hq : ['?'] = List.replicate 1 '?' := rfl
  rw [hdot, hexc, hq, collapseRuns_eq_mapRuns '.' 3 3 l, collapseRuns_eq_mapRuns '!' 2 1 _,
    toRuns_fromRuns _ (validRuns_map_collapseRun '.' 3 3 (by omega) (validRuns_toRuns l)),
    collapseRuns_eq_mapRuns '?' 2 1 _,
    toRuns_fromRuns _ (validRuns_map_collapseRun '!' 2 1 (by omega)
      (validRuns_map_collapseRun '.' 3 3 (by omega) (validRuns_toRuns l))),
    List.map_map, List.map_map]
  rfl

/-- Collapsing a run for `...`, `!` and `?` in sequence is pointwise
idempotent. -/
theorem collapseRun_comp_idem (p : Char × Nat) :
    collapseRun '?' 2 1 (collapseRun '!' 2 1 (collapseRun '.' 3 3
      (collapseRun '?' 2 1 (collapseRun '!' 2 1 (collapseRun '.' 3 3 p))))) =
    collapseRun '?' 2 1 (collapseRun '!' 2 1 (collapseRun '.' 3 3 p)) := by
  obtain ⟨c, k⟩ := p
  by_cases h1 : c = '.'
  · subst h1
    by_cases h2 : 3 ≤ k <;> simp [collapseRun, h2]
  · by_cases h3 : c = '!'
    · subst h3
      by_cases h4 : 2 ≤ k <;> simp [collapseRun, h4]
    · by_cases h5 : c = '?'
      · subst h5
        by_cases h6 : 2 ≤ k <;> simp [collapseRun, h6]
      · simp [collapseRun, h1, h3, h5]

set_option maxHeartbeats 1000000 in
/-- `remove_excessive_punctuation` is idempotent. -/
theorem removeExcessivePunctuationL_idem (l : List Char) :
    removeExcessivePunctuationL (removeExcessivePunctuationL l) =
      removeExcessivePunctuationL l := by
  have hvalid : ValidRuns ((toRuns l).map
      (fun p => collapseRun '?' 2 1 (collapseRun '!' 2 1 (collapseRun '.' 3 3 p)))) := by
    rw [show (toRuns l).map
        (fun p => collapseRun '?' 2 1 (collapseRun '!' 2 1 (collapseRun '.' 3 3 p))) =
        (((toRuns l).map (collapseRun '.' 3 3)).map (collapseRun '!' 2 1)).map
          (collapseRun '?' 2 1) from by simp [List.map_map]]
    exact validRuns_map_collapseRun '?' 2 1 (by omega)
      (validRuns_map_collapseRun '!' 2 1 (by omega)
        (validRuns_map_collapseRun '.' 3 3 (by omega) (validRuns_toRuns l)))
  calc removeExcessivePunctuationL (removeExcessivePunctuationL l)
      = removeExcessivePunctuationL (fromRuns ((toRuns l).map
          (fun p => collapseRun '?' 2 1 (collapseRun '!' 2 1 (collapseRun '.' 3 3 p))))) := by
        rw [removeExcessivePunctuationL_eq_mapRuns l]
    _ = fromRuns ((toRuns (fromRuns ((toRuns l).map
          (fun p => collapseRun '?' 2 1 (collapseRun '!' 2 1 (collapseRun '.' 3 3 p)))))).map
          (fun p => collapseRun '?' 2 1 (collapseRun '!' 2 1 (collapseRun '.' 3 3 p)))) :=
        removeExcessivePunctuationL_eq_mapRuns (fromRuns ((toRuns l).map
          (fun p => collapseRun '?' 2 1 (collapseRun '!' 2 1 (collapseRun '.' 3 3 p)))))
    _ = fromRuns (((toRuns l).map
          (fun p => collapseRun '?' 2 1 (collapseRun '!' 2 1 (collapseRun '.' 3 3 p)))).map
          (fun p => collapseRun '?' 2 1 (collapseRun '!' 2 1 (collapseRun '.' 3 3 p)))) := by
        rw [toRuns_fromRuns _ hvalid]
    _ = fromRuns ((toRuns l).map
          (fun p => collapseRun '?' 2 1 (collapseRun '!' 2 1 (collapseRun '.' 3 3 p)))) := by
        refine congrArg fromRuns ?_
        rw [List.map_map]
        apply List.map_congr_left
        intro p _
        simp only [Function.comp_apply]
        exact collapseRun_comp_idem p
    _ = removeExcessivePunctuationL l := (removeExcessivePunctuationL_eq_mapRuns l).symm

/-- C6: amended — `clean_text` as a whole is not idempotent (see the
counterexample through the em-dash/hyphenation interaction), but its two
normalization passes are: `normalize_whitespace` and
`remove_excessive_punctuation` each leave their own output fixed, so
re-running either pass changes nothing. -/
theorem whitespace_punct_normalization_idempotent (s : String) :
    normalizeWhitespace (normalizeWhitespace s) = normalizeWhitespace s ∧
      removeExcessivePunctuation (removeExcessivePunctuation s) =
        removeExcessivePunctuation s :=
  ⟨congrArg String.mk (normalizeWhitespaceL_idem s.data),
    congrArg String.mk (removeExcessivePunctuationL_idem s.data)⟩

end Flashcards





